import Mathlib

/-!
Verification development for the CV-processor advanced extraction engine
(`src/services/cvProcessor.ts`).  The TypeScript source is shallowly embedded:
strings are Lean `String`s, line lists are `List String`, the section map is an
association list with JavaScript `Map.set` update semantics, regular
expressions are specialised backtracking matchers over `List Char` that follow
the exact pattern written in the source, and `new Date().getFullYear()` is an
explicit `currentYear` parameter.  All definitions are executable and use only
structural recursion (fuel where the source loop advances by more than one),
so concrete runs reduce inside the kernel.
-/

/-! ## JavaScript string primitives -/

/-- JS `\w` (ASCII word character), used by the `\b` word-boundary assertion. -/
def isWordC (c : Char) : Bool := c.isAlphanum || c = '_'

/-- JS `\s` for the inputs handled here (ASCII whitespace forms). -/
def isSpaceJS (c : Char) : Bool :=
  c = ' ' || c = '\t' || c = '\n' || c = '\r' || c = '\x0b' || c = '\x0c'

/-- Accented upper/lower-case pairs appearing in the source's lexicons and
character classes; JS `toLowerCase`/the `i` flag folds these. -/
def accentPairs : List (Char × Char) :=
  [('À','à'), ('Â','â'), ('Ä','ä'), ('Æ','æ'), ('Ç','ç'), ('É','é'), ('È','è'),
   ('Ê','ê'), ('Ë','ë'), ('Ï','ï'), ('Î','î'), ('Ô','ô'), ('Ö','ö'), ('Œ','œ'),
   ('Ù','ù'), ('Û','û'), ('Ü','ü'), ('Ÿ','ÿ')]

def toLowerC (c : Char) : Char :=
  if c.isUpper then c.toLower
  else (((accentPairs.find? (fun p => p.1 = c)).map (fun p => p.2)).getD c)

def toUpperC (c : Char) : Char :=
  if c.isLower then c.toUpper
  else (((accentPairs.find? (fun p => p.2 = c)).map (fun p => p.1)).getD c)

/-- Case-insensitive character equality (the JS `i` flag). -/
def eqCI (a b : Char) : Bool := toLowerC a = toLowerC b

def jsToLower (s : String) : String := ⟨s.data.map toLowerC⟩

def jsToUpper (s : String) : String := ⟨s.data.map toUpperC⟩

/-- JS `String.prototype.trim`. -/
def jsTrimL : List Char → List Char := List.dropWhile isSpaceJS

def jsTrim (s : String) : String := ⟨(jsTrimL (jsTrimL s.data).reverse).reverse⟩

/-- Split on a single separator character (JS `s.split(sep)` for a one-character
separator), written structurally so concrete runs reduce in the kernel. -/
def splitChGo (sep : Char) : List Char → List Char → List String
  | [], acc => [⟨acc.reverse⟩]
  | c :: cs, acc =>
    if c = sep then (⟨acc.reverse⟩ : String) :: splitChGo sep cs []
    else splitChGo sep cs (c :: acc)

def splitCh (sep : Char) (s : String) : List String := splitChGo sep s.data []

/-- JS `text.split('\n')`. -/
def jsSplitLines (s : String) : List String := splitCh '\n' s

/-- JS `parts.join(sep)` (structural replacement for `String.intercalate`). -/
def joinSep (sep : String) : List String → String
  | [] => ""
  | [s] => s
  | s :: rest => s ++ sep ++ joinSep sep rest

/-- Prefix test up to a character comparer. -/
def isPreBy (eq : Char → Char → Bool) : List Char → List Char → Bool
  | [], _ => true
  | _ :: _, [] => false
  | p :: ps, c :: cs => eq p c && isPreBy eq ps cs

/-- Substring containment up to a character comparer. -/
def containsBy (eq : Char → Char → Bool) (pat : List Char) : List Char → Bool
  | [] => isPreBy eq pat []
  | c :: cs => isPreBy eq pat (c :: cs) || containsBy eq pat cs

/-- JS `hay.includes(needle)` (case sensitive). -/
def jsIncludes (hay needle : String) : Bool := containsBy (fun a b => a = b) needle.data hay.data

/-- Case-insensitive substring containment (a `/literal/i` regex test). -/
def containsCI (hay pat : String) : Bool := containsBy eqCI pat.data hay.data

/-- Case-insensitive prefix (a `/^literal/i` regex test). -/
def startsWithCI (hay pat : String) : Bool := isPreBy eqCI pat.data hay.data

/-- Word-boundary condition of JS `\b` between two optional characters. -/
def boundB (l r : Option Char) : Bool :=
  (match l with | none => false | some c => isWordC c) !=
  (match r with | none => false | some c => isWordC c)

/-- Whether the literal word `pat` matches at the head of `cs` (previous
character `prev`) with `\b` at both ends, case-insensitively. -/
def wordMatchHere (pat : List Char) (prev : Option Char) (cs : List Char) : Bool :=
  match pat with
  | [] => false
  | p :: _ =>
    isPreBy eqCI pat cs && boundB prev (some p) &&
      boundB ((pat.getLast? ).map id) ((cs.drop pat.length).head?)

/-- One `/\bpat\b/i` test anywhere in the text. -/
def testWordB (hay pat : String) : Bool :=
  let rec go (prev : Option Char) : List Char → Bool
    | [] => wordMatchHere pat.data prev []
    | c :: cs => wordMatchHere pat.data prev (c :: cs) || go (some c) cs
  go none hay.data

/-- Count of `/\bpat\b/gi` matches: scan left to right, resume after a match
(fuel is the remaining text length, which every step strictly consumes). -/
def countWordBGo (pat : List Char) : Nat → Option Char → List Char → Nat
  | 0, _, _ => 0
  | _ + 1, prev, [] => if wordMatchHere pat prev [] then 1 else 0
  | fuel + 1, prev, c :: cs =>
    if wordMatchHere pat prev (c :: cs) then
      1 + countWordBGo pat fuel (pat.getLast?) ((c :: cs).drop pat.length)
    else
      countWordBGo pat fuel (some c) cs

def countWordB (hay pat : String) : Nat :=
  match pat.data with
  | [] => 0
  | _ :: _ => countWordBGo pat.data (hay.data.length + 1) none hay.data

/-- JS `parseInt` on a decimal string: optional whitespace and sign, then the
leading digit run; `none` models `NaN`. -/
def jsParseInt (s : String) : Option Int :=
  let t := s.data.dropWhile isSpaceJS
  let (sign, rest) :=
    match t with
    | '-' :: r => ((-1 : Int), r)
    | '+' :: r => ((1 : Int), r)
    | r => ((1 : Int), r)
  let digits := rest.takeWhile Char.isDigit
  match digits with
  | [] => none
  | _ :: _ =>
    some (sign * (digits.foldl (fun n c => n * 10 + (c.toNat - '0'.toNat)) 0 : Nat))

/-- JS `line.split(/\s+/)` on an already trimmed line: the whitespace-separated
words. -/
def splitWsGo : List Char → List Char → List String
  | [], acc => if acc.isEmpty then [] else [⟨acc.reverse⟩]
  | c :: cs, acc =>
    if isSpaceJS c then
      if acc.isEmpty then splitWsGo cs [] else (⟨acc.reverse⟩ : String) :: splitWsGo cs []
    else splitWsGo cs (c :: acc)

def splitWs (s : String) : List String := splitWsGo s.data []

/-- JS `line.replace(/\s+/g, ' ')`. -/
def collapseWsGo : Bool → List Char → List Char
  | _, [] => []
  | inWs, c :: cs =>
    if isSpaceJS c then
      if inWs then collapseWsGo true cs else ' ' :: collapseWsGo true cs
    else c :: collapseWsGo false cs

def collapseWs (s : String) : String := ⟨collapseWsGo false s.data⟩

/-! ## Language detection (`detectLanguage`, cvProcessor.ts lines 313–363) -/

inductive LangCode where
  | fr | en | mixed
deriving DecidableEq, Repr

structure LanguageProfile where
  code : LangCode
  confidence : ℚ
  frenchScore : Nat
  englishScore : Nat
deriving DecidableEq, Repr

def frenchKeywords : List String :=
  ["expérience", "éducation", "formation", "compétences", "competences",
   "langues", "certifications", "projets", "professionnel", "développeur",
   "ingénieur", "université", "école", "diplôme", "licence", "master",
   "stage", "mission", "réalisation", "responsabilités", "poste"]

def englishKeywords : List String :=
  ["experience", "education", "skills", "languages", "certifications",
   "projects", "professional", "developer", "engineer", "university",
   "school", "degree", "bachelor", "master", "internship", "position",
   "responsibilities", "achievements", "role"]

def keywordScore (textLower : String) (kws : List String) : Nat :=
  kws.foldl (fun acc kw => acc + countWordB textLower kw) 0

def frenchScoreOf (text : String) : Nat := keywordScore (jsToLower text) frenchKeywords

def englishScoreOf (text : String) : Nat := keywordScore (jsToLower text) englishKeywords

/-- The classification rule of `detectLanguage`: `fr` when
`frenchScore > englishScore * 1.5`, `en` when `englishScore > frenchScore * 1.5`,
otherwise `mixed` (the initial `'en'` value is always overwritten).  The
comparison `s > t * 1.5` is exact floating-point arithmetic on integer scores,
so it is written in the equivalent integer form `2 * s > 3 * t`; the rational
characterisation is proved in `language_margin_claim`. -/
def classifyLanguage (fr en : Nat) : LangCode :=
  if 2 * fr > 3 * en then LangCode.fr
  else if 2 * en > 3 * fr then LangCode.en
  else LangCode.mixed

def detectLanguage (text : String) : LanguageProfile :=
  let frenchScore := frenchScoreOf text
  let englishScore := englishScoreOf text
  let total := frenchScore + englishScore
  let confidence : ℚ := if total > 0 then (max frenchScore englishScore : ℚ) / (total : ℚ) else 0.5
  { code := classifyLanguage frenchScore englishScore
    confidence := confidence
    frenchScore := frenchScore
    englishScore := englishScore }

/-! ## Section identification (`identifySections`, cvProcessor.ts lines 368–421) -/

structure SectionSpan where
  start : Nat
  endIdx : Nat
  content : String
deriving DecidableEq, Repr

/-- The section map is a JS `Map`: insertion-ordered, `set` on an existing key
updates it in place. -/
abbrev SectionMap := List (String × SectionSpan)

def mapSet (m : SectionMap) (k : String) (v : SectionSpan) : SectionMap :=
  if m.any (fun p => p.1 = k) then
    m.map (fun p => if p.1 = k then (k, v) else p)
  else m ++ [(k, v)]

def mapGet (m : SectionMap) (k : String) : Option SectionSpan :=
  (m.find? (fun p => p.1 = k)).map (fun p => p.2)

/-- Alternatives of each section-header regex: the regex is an unanchored
case-insensitive alternation of literal words, so a line matches iff one
alternative is a substring of the trimmed line. -/
def sectionPatternList (code : LangCode) : List (String × List String) :=
  [("experience", if code = LangCode.fr
      then ["EXPÉRIENCE", "EXPERIENCE PROFESSIONNELLE", "PARCOURS PROFESSIONNEL"]
      else ["EXPERIENCE", "PROFESSIONAL EXPERIENCE", "WORK HISTORY", "EMPLOYMENT"]),
   ("education", if code = LangCode.fr
      then ["FORMATION", "ÉDUCATION", "ÉTUDES", "PARCOURS ACADÉMIQUE"]
      else ["EDUCATION", "ACADEMIC BACKGROUND", "QUALIFICATIONS"]),
   ("skills", if code = LangCode.fr
      then ["COMPÉTENCES", "COMPETENCES", "SAVOIR-FAIRE"]
      else ["SKILLS", "COMPETENCIES", "TECHNICAL SKILLS", "EXPERTISE"]),
   ("languages", if code = LangCode.fr then ["LANGUES"] else ["LANGUAGES"]),
   ("certifications", if code = LangCode.fr
      then ["CERTIFICATIONS", "CERTIFICATS"]
      else ["CERTIFICATIONS", "CERTIFICATES", "LICENSES"]),
   ("projects", if code = LangCode.fr
      then ["PROJETS", "RÉALISATIONS"]
      else ["PROJECTS", "PORTFOLIO", "KEY PROJECTS"]),
   ("summary", if code = LangCode.fr
      then ["RÉSUMÉ", "PROFIL", "À PROPOS"]
      else ["SUMMARY", "PROFILE", "ABOUT", "OBJECTIVE"])]

def lineMatchesPattern (alts : List String) (line : String) : Bool :=
  alts.any (fun a => containsCI (jsTrim line) a)

/-- The `{name, index}` candidates, pushed pattern-major exactly as the
`Object.entries(...).forEach` / `lines.forEach` nesting does. -/
def sectionStartsOf (lines : List String) (code : LangCode) : List (String × Nat) :=
  (sectionPatternList code).flatMap (fun p =>
    ((lines.enum).filter (fun li => lineMatchesPattern p.2 li.2)).map
      (fun li => (p.1, li.1)))

/-- Stable insertion sort by line index (`sectionStarts.sort((a, b) => a.index - b.index)`;
JS `Array.prototype.sort` is stable). -/
def insertByIdx (x : String × Nat) : List (String × Nat) → List (String × Nat)
  | [] => [x]
  | y :: ys => if x.2 ≤ y.2 then x :: y :: ys else y :: insertByIdx x ys

def sortByIdx (l : List (String × Nat)) : List (String × Nat) := l.foldr insertByIdx []

/-- JS `lines.slice(start, end).join('\n')`. -/
def contentSlice (lines : List String) (s e : Nat) : String :=
  joinSep "\n" ((lines.drop s).take (e - s))

/-- The `sectionStarts.forEach` build: each candidate spans from its own index
to the next candidate's index (or the end of the document). -/
def buildSections (lines : List String) : List (String × Nat) → SectionMap → SectionMap
  | [], m => m
  | [(n, i)], m => mapSet m n ⟨i, lines.length, contentSlice lines i lines.length⟩
  | (n, i) :: (n2, j) :: rest, m =>
    buildSections lines ((n2, j) :: rest) (mapSet m n ⟨i, j, contentSlice lines i j⟩)

def identifySections (text : String) (language : LanguageProfile) : SectionMap :=
  let lines := jsSplitLines text
  buildSections lines (sortByIdx (sectionStartsOf lines language.code)) []

/-! ## Extraction context (`buildExtractionContext`, cvProcessor.ts lines 297–308) -/

structure ExtractionContext where
  language : LanguageProfile
  sections : SectionMap
  lines : List String
  documentType : String
deriving DecidableEq, Repr

def buildExtractionContext (text documentType : String) : ExtractionContext :=
  { language := detectLanguage text
    sections := identifySections text (detectLanguage text)
    lines := ((jsSplitLines text).map jsTrim).filter (fun l => l.data.length > 0)
    documentType := documentType }

/-! ## Regex matchers for personal info (cvProcessor.ts lines 432–460) -/

/-- Generic leftmost-match scanner: try the position matcher at every index,
left to right, tracking the previous character (for look-behind and `\b`). -/
def scanLeft {α : Type} (matchAt : Option Char → List Char → Option α) :
    Option Char → List Char → Option α
  | prev, [] => matchAt prev []
  | prev, c :: cs =>
    match matchAt prev (c :: cs) with
    | some r => some r
    | none => scanLeft matchAt (some c) cs

def isAsciiAlpha (c : Char) : Bool := ('A' ≤ c && c ≤ 'Z') || ('a' ≤ c && c ≤ 'z')

/-- Character class `[\w.+-]` of the email local part. -/
def isLocalChar (c : Char) : Bool := isWordC c || c = '.' || c = '+' || c = '-'

/-- Character class `[\w.-]` of the email domain. -/
def isDomChar (c : Char) : Bool := isWordC c || c = '.' || c = '-'

/-- Backtracking of `[\w.-]*\.[a-zA-Z]{2,}`: the star yields characters from
the right until the next character is a dot followed by at least two ASCII
letters (the TLD), i.e. the largest such split of the domain run. -/
def emailTld (run : List Char) : Nat → Option (Nat × Nat)
  | 0 => none
  | k + 1 =>
    if run.getD k ' ' = '.' then
      let a := ((run.drop (k + 1)).takeWhile isAsciiAlpha).length
      if 2 ≤ a then some (k, a) else emailTld run k
    else emailTld run k

/-- One attempt of `/(?<!\d)([a-zA-Z][\w.+-]*@[a-zA-Z0-9][\w.-]*\.[a-zA-Z]{2,})/`
at the current position. -/
def emailMatchAt (prev : Option Char) (cs : List Char) : Option String :=
  if (match prev with | some c => c.isDigit | none => false) then none
  else
    match cs with
    | [] => none
    | c :: rest =>
      if isAsciiAlpha c then
        let loc := rest.takeWhile isLocalChar
        match rest.drop loc.length with
        | '@' :: d :: r3 =>
          if d.isAlphanum then
            let run := r3.takeWhile isDomChar
            match emailTld run run.length with
            | some (k, a) =>
              some ⟨c :: loc ++ '@' :: d :: (run.take k ++ '.' :: (run.drop (k + 1)).take a)⟩
            | none => none
          else none
        | _ => none
      else none

def emailFirstMatch (s : String) : Option String := scanLeft emailMatchAt none s.data

/-- Negative look-ahead `(?!\d*[-]\d{4})` after the captured digits: bad iff the
remaining text is some digits, a hyphen, then at least four digits. -/
def phoneLookBad (rem : List Char) : Bool :=
  match rem.dropWhile Char.isDigit with
  | '-' :: r => 4 ≤ (r.takeWhile Char.isDigit).length
  | _ => false

/-- Greedy `\d{10,15}` with backtracking against the look-ahead: try the
longest candidate first, down to 10 digits. `after` is the text starting at
the first digit. -/
def phoneTryLen (after : List Char) : Nat → Option (List Char)
  | 0 => none
  | l + 1 =>
    if l + 1 < 10 then none
    else if phoneLookBad (after.drop (l + 1)) then phoneTryLen after l
    else some (after.take (l + 1))

def phoneLabels : List String := ["Tel", "Phone", "Mobile", "Téléphone", "Tél", "GSM", "Contact"]

/-- The `[\s:]*(\+?\d{10,15})(?!…)` tail of the phone pattern; returns
(consumed text, capture). -/
def phoneTailMatch (cs : List Char) : Option (List Char × List Char) :=
  let ws := cs.takeWhile (fun c => isSpaceJS c || c = ':')
  match cs.drop ws.length with
  | '+' :: r3 =>
    let d := r3.takeWhile Char.isDigit
    if d.length < 10 then none
    else
      match phoneTryLen r3 (min 15 d.length) with
      | some cap => some (ws ++ '+' :: cap, '+' :: cap)
      | none => none
  | r3 =>
    let d := r3.takeWhile Char.isDigit
    if d.length < 10 then none
    else
      match phoneTryLen r3 (min 15 d.length) with
      | some cap => some (ws ++ cap, cap)
      | none => none

/-- The optional contact label, alternatives in source order, then the tail. -/
def phoneWithLabels (cs : List Char) : List String → Option (List Char × List Char)
  | [] => phoneTailMatch cs
  | lb :: rest =>
    if isPreBy eqCI lb.data cs then
      match phoneTailMatch (cs.drop lb.data.length) with
      | some (m, cap) => some (cs.take lb.data.length ++ m, cap)
      | none => phoneWithLabels cs rest
    else phoneWithLabels cs rest

/-- One attempt of
`/(?:Tel|Phone|Mobile|Téléphone|Tél|GSM|Contact)?[\s:]*(\+?\d{10,15})(?!\d*[-]\d{4})/i`;
returns (full match, capture group 1). -/
def phoneMatchAt (_ : Option Char) (cs : List Char) : Option (String × String) :=
  (phoneWithLabels cs phoneLabels).map (fun p => ((⟨p.1⟩ : String), (⟨p.2⟩ : String)))

def phoneFirstMatch (s : String) : Option (String × String) := scanLeft phoneMatchAt none s.data

def linkedinCapC (c : Char) : Bool := c.isAlphanum || c = '-'

/-- One attempt of `/(?:linkedin\.com\/in\/|lnkd\.in\/|linkedin:?\s*)([a-zA-Z0-9\-]+)/i`. -/
def linkedinMatchAt (_ : Option Char) (cs : List Char) : Option String :=
  let alt (pre : String) : Option String :=
    if isPreBy eqCI pre.data cs then
      let cap := (cs.drop pre.data.length).takeWhile linkedinCapC
      if cap.isEmpty then none else some ⟨cap⟩
    else none
  match alt "linkedin.com/in/" with
  | some r => some r
  | none =>
    match alt "lnkd.in/" with
    | some r => some r
    | none =>
      if isPreBy eqCI "linkedin".data cs then
        let r1 := cs.drop 8
        let r2 := match r1 with | ':' :: t => t | t => t
        let cap := (r2.dropWhile isSpaceJS).takeWhile linkedinCapC
        if cap.isEmpty then none else some ⟨cap⟩
      else none

def linkedinFirstMatch (s : String) : Option String := scanLeft linkedinMatchAt none s.data

/-! ## Name extraction (`extractNameMultiPhase`, cvProcessor.ts lines 481–588) -/

def isCapN (c : Char) : Bool := ('A' ≤ c && c ≤ 'Z') || c ∈ "ÀÂÄÆÇÉÈÊËÏÎÔÖŒÙÛÜ".data

def isLowN (c : Char) : Bool := ('a' ≤ c && c ≤ 'z') || c ∈ "àâäæçéèêëïîôöœùûü".data

def isDashC (c : Char) : Bool := c = '-' || c = '–' || c = '—'

/-- Four consecutive digits at the head (`\d{4}` at a position). -/
def take4Digits (cs : List Char) : Bool :=
  (cs.take 4).length = 4 && (cs.take 4).all Char.isDigit

def anySuffix (p : List Char → Bool) : List Char → Bool
  | [] => p []
  | c :: cs => p (c :: cs) || anySuffix p cs

/-- A `\d{4}\s*[-–—]\s*\d{4}` date-range occurrence at the head. -/
def dateRangeAt (cs : List Char) : Bool :=
  take4Digits cs &&
    (match (cs.drop 4).dropWhile isSpaceJS with
     | c :: r2 => isDashC c && take4Digits (r2.dropWhile isSpaceJS)
     | [] => false)

def hasDateRange (s : String) : Bool := anySuffix dateRangeAt s.data

/-- A `\d{4}` occurrence anywhere. -/
def has4Digits (s : String) : Bool := anySuffix take4Digits s.data

def nameJobWords : List String :=
  ["ENGINEER", "MANAGER", "DEVELOPER", "DÉVELOPPEUR", "DIRECTOR", "DESIGNER",
   "ARCHITECT", "INGÉNIEUR", "ANALYST", "CONSULTANT", "SPECIALIST", "COORDINATOR",
   "TECHNICIAN", "TECHNICIEN", "OFFICER", "EXECUTIVE", "SUPERVISOR", "ASSISTANT",
   "INTERN", "LEAD", "CHIEF", "HEAD", "FULL STACK", "FRONTEND", "BACKEND",
   "GÉNIE", "INFORMATIQUE", "FABRICATION", "MECANIQUE", "MÉCANIQUE"]

def nameNoiseWords : List String :=
  ["Technologies", "Utilisees", "Spring", "Boot", "Security", "MySQL",
   "Framework", "JPA", "Repository"]

/-- The `excludePatterns` disjunction of `extractNameMultiPhase`. -/
def excludeNameLine (line : String) : Bool :=
  (["CURRICULUM", "VITAE", "CV", "RESUME", "RÉSUMÉ"].any (fun w => startsWithCI line w)) ||
  (nameJobWords.any (fun w => testWordB line w)) ||
  (["@", "http", "www.", "github.com", "linkedin"].any (fun w => containsCI line w)) ||
  (match line.data with | c :: _ => c.isDigit | [] => false) ||
  (["EXPERIENCE", "EDUCATION", "SKILLS", "FORMATION", "COMPÉTENCES", "COMPETENCES",
    "PROJET", "PROJECT", "CERTIFICATION"].any (fun w => containsCI line w)) ||
  hasDateRange line ||
  (jsToLower (jsTrim line) = "fes") ||
  (line.data.length ≥ 20 && line.data.all (fun c => ('A' ≤ c && c ≤ 'Z') || isSpaceJS c)) ||
  (nameNoiseWords.any (fun w => containsCI line w))

/-- Parser for `/^([A-Z…]\s){2,}[A-Z…]+$/`: pairs of one capital and one
whitespace character, at least twice, then a trailing capital run. -/
def spacedCapsLoop : List Char → Nat → Bool
  | c :: s :: rest, n =>
    if isCapN c && isSpaceJS s then spacedCapsLoop rest (n + 1)
    else n ≥ 2 && (c :: s :: rest).all isCapN
  | cs, n => n ≥ 2 && !cs.isEmpty && cs.all isCapN

def spacedCapsOk (line : String) : Bool := spacedCapsLoop line.data 0

/-- DFA for `/^([A-Z…]+\s){1,3}[A-Z…]+$/` counting the capital-run words
(which are separated by exactly one whitespace character). -/
def capsDFA : List Char → Bool → Nat → Option Nat
  | [], inWord, words => if inWord then some words else none
  | c :: cs, true, words =>
    if isCapN c then capsDFA cs true words
    else if isSpaceJS c then capsDFA cs false words
    else none
  | c :: cs, false, words => if isCapN c then capsDFA cs true (words + 1) else none

def capsGroupCount (cs : List Char) : Option Nat := capsDFA cs false 0

def capsAllUpperOk (line : String) : Bool :=
  match capsGroupCount line.data with
  | some n => 2 ≤ n && n ≤ 4
  | none => false

def titleCaseWord (w : String) : String :=
  match w.data with
  | [] => ""
  | c :: cs => ⟨c :: cs.map toLowerC⟩

def titleCaseLine (line : String) : String :=
  joinSep " " ((splitWs line).map titleCaseWord)

/-- Phase 1 of the name search (lines 0–14): spaced capitals verbatim, or an
all-caps 2–4 word line of length 8–50 converted to title case. -/
def namePhase1 : List String → Option String
  | [] => none
  | l :: rest =>
    let line := jsTrim l
    if line.data.length < 5 || line.data.length > 100 then namePhase1 rest
    else if excludeNameLine line then namePhase1 rest
    else if spacedCapsOk line then some (jsTrim (collapseWs line))
    else if capsAllUpperOk line && line = jsToUpper line &&
            (2 ≤ (splitWs line).length && (splitWs line).length ≤ 4) &&
            (8 ≤ line.data.length && line.data.length ≤ 50) then
      some (titleCaseLine line)
    else namePhase1 rest

/-- DFA for `/^([A-Z…][a-z…]+(?:[\s-][A-Z…][a-z…]+){1,3})$/`: components of a
capital and at least one lower-case letter, separated by single space or
hyphen characters.  State 0 expects a capital, 1 expects the first lower-case
letter, 2 is inside the lower-case run. -/
def titleDFA : List Char → Nat → Nat → Option Nat
  | [], st, comps => if st = 2 then some comps else none
  | c :: cs, 0, comps => if isCapN c then titleDFA cs 1 (comps + 1) else none
  | c :: cs, 1, comps => if isLowN c then titleDFA cs 2 comps else none
  | c :: cs, _, comps =>
    if isLowN c then titleDFA cs 2 comps
    else if isSpaceJS c || c = '-' then titleDFA cs 0 comps
    else none

def strictTitleOk (line : String) : Bool :=
  match titleDFA line.data 0 0 with
  | some n => 2 ≤ n && n ≤ 4
  | none => false

/-- Phase 2 of the name search: strict title case, no digits, no pipe, colon
or slash, 2–4 words. -/
def namePhase2 : List String → Option String
  | [] => none
  | l :: rest =>
    let line := jsTrim l
    if line.data.length < 5 || line.data.length > 80 then namePhase2 rest
    else if excludeNameLine line then namePhase2 rest
    else if line = jsToUpper line || line = jsToLower line then namePhase2 rest
    else if jsIncludes line "|" || jsIncludes line ":" || jsIncludes line "/" then namePhase2 rest
    else if strictTitleOk line && !line.data.any Char.isDigit &&
            (2 ≤ (splitWs line).length && (splitWs line).length ≤ 4) then
      some line
    else namePhase2 rest

def nameCommonWords : List String :=
  ["the", "a", "an", "is", "are", "was", "were", "le", "la", "les", "un", "une",
   "des", "et", "ou", "dans", "pour", "avec", "sur"]

/-- Phase 3 of the name search over the first 30 non-section lines. -/
def namePhase3 : List String → Option String
  | [] => none
  | l :: rest =>
    let trimmed := jsTrim l
    if trimmed.data.length < 5 || trimmed.data.length > 100 then namePhase3 rest
    else if excludeNameLine trimmed then namePhase3 rest
    else if (match trimmed.data with | c :: _ => isCapN c | [] => false) &&
            trimmed.data.any (fun c => 'a' ≤ c && c ≤ 'z') &&
            trimmed.data.any (fun c => isSpaceJS c || c = '-') &&
            (2 ≤ (splitWs trimmed).length && (splitWs trimmed).length ≤ 5) &&
            !has4Digits trimmed &&
            !(nameCommonWords.any (fun w => testWordB trimmed w)) then
      some trimmed
    else namePhase3 rest

def sectionLineWords : List String :=
  ["EXPERIENCE", "EDUCATION", "PROJET", "PROJECT", "COMPETENCES", "SKILLS", "CERTIFICATION"]

def extractNameMultiPhase (lines : List String) (email phone : Option String) : String :=
  let searchEndLine : Nat :=
    if email.isSome || phone.isSome then
      match lines.findIdx? (fun l =>
          (match email with
           | some em => jsIncludes (jsToLower l) (jsToLower em)
           | none => false) ||
          (match phone with
           | some ph => jsIncludes l ph
           | none => false)) with
      | some i => if i > 10 then i else 40
      | none => 40
    else 40
  match namePhase1 (lines.take (min 15 lines.length)) with
  | some n => n
  | none =>
    match namePhase2 (lines.take (min searchEndLine lines.length)) with
    | some n => n
    | none =>
      let topNonSection := (lines.take 30).filter (fun l =>
        (jsTrim l).data.length > 0 &&
          !(sectionLineWords.any (fun w => startsWithCI (jsTrim l) w)))
      match namePhase3 topNonSection with
      | some n => n
      | none => "Name Not Found"

/-! ## Position and location (`extractPosition`/`extractLocation`,
cvProcessor.ts lines 593–708) -/

def positionKeywords (code : LangCode) : List String :=
  if code = LangCode.fr then
    ["Développeur", "Ingénieur", "Architecte", "Chef", "Directeur", "Consultant",
     "Analyste", "Technicien", "Responsable", "Manager"]
  else
    ["Developer", "Engineer", "Architect", "Lead", "Director", "Manager",
     "Consultant", "Analyst", "Specialist", "Designer"]

def extractPositionGo (kws : List String) : List String → String
  | [] => ""
  | l :: rest =>
    let line := jsTrim l
    if (jsIncludes line "|" || kws.any (fun kw => jsIncludes line kw)) &&
        line.data.length > 10 && line.data.length < 200 && !jsIncludes line "@" then
      line
    else extractPositionGo kws rest

def extractPosition (ctx : ExtractionContext) : String :=
  extractPositionGo (positionKeywords ctx.language.code) (ctx.lines.take (min 15 ctx.lines.length))

def locTechTerms : List String :=
  ["Spring", "Boot", "React", "Angular", "Node", "Express", "Django", "Flask",
   "Laravel", "Symfony", "MySQL", "MongoDB", "PostgreSQL", "Redis", "Docker",
   "Kubernetes", "AWS", "Azure", "GCP", "JavaScript", "TypeScript", "Python",
   "Java", "PHP", "Ruby", "Security", "Framework", "Library"]

def locValidCities : List String :=
  ["Fès", "Fes", "Casablanca", "Rabat", "Marrakech", "Tanger", "Agadir",
   "Mohammedia", "Oujda", "Kenitra", "Tetouan", "Paris", "London", "New York",
   "Dubai", "Berlin", "Madrid", "Rome", "Amsterdam"]

def isCapA (c : Char) : Bool := 'A' ≤ c && c ≤ 'Z'

/-- Character class `[a-zà-ÿ]` (ASCII lower case or the U+00E0–U+00FF range). -/
def isLowLoc (c : Char) : Bool := ('a' ≤ c && c ≤ 'z') || (0xE0 ≤ c.toNat && c.toNat ≤ 0xFF)

/-- One `[A-Z][a-zà-ÿ]+` word; returns the word and the rest. -/
def ccWord (cs : List Char) : Option (List Char × List Char) :=
  match cs with
  | c :: rest =>
    if isCapA c then
      let lows := rest.takeWhile isLowLoc
      if lows.isEmpty then none else some (c :: lows, rest.drop lows.length)
    else none
  | [] => none

/-- Backtracking of a greedy `[a-zà-ÿ]+` followed by `\b`: keep the longest
prefix of the run whose last character forms a word boundary with what
follows. -/
def shrinkLowsForB (c : Char) (lows rest : List Char) : Nat → Option (List Char)
  | 0 => none
  | j + 1 =>
    let kept := lows.take (j + 1)
    let nxt := (lows.drop (j + 1) ++ rest).head?
    if boundB (some (kept.getLastD c)) nxt then some (c :: kept)
    else shrinkLowsForB c lows rest j

/-- Backtracking of `[A-Z][a-zà-ÿ]+(?:\s+[A-Z][a-zà-ÿ]+)?\b` (the country
group): shrink the first word's run, preferring the optional second word,
until the trailing `\b` holds. -/
def ccG2Go (c : Char) (lows after : List Char) : Nat → Option (List Char)
  | 0 => none
  | j + 1 =>
    let kept := lows.take (j + 1)
    let rem := lows.drop (j + 1) ++ after
    let sp := rem.takeWhile isSpaceJS
    let ext : Option (List Char) :=
      if sp.length ≥ 1 then
        match ccWord (rem.drop sp.length) with
        | some (w2, r2) =>
          match w2 with
          | c2 :: lows2 =>
            (shrinkLowsForB c2 lows2 r2 lows2.length).map (fun w => c :: kept ++ sp ++ w)
          | [] => none
        | none => none
      else none
    match ext with
    | some cap => some cap
    | none =>
      if boundB (some (kept.getLastD c)) rem.head? then some (c :: kept)
      else ccG2Go c lows after j

def ccGroup2 (cs : List Char) : Option (List Char) :=
  match cs with
  | c :: rest =>
    if isCapA c then
      let lows := rest.takeWhile isLowLoc
      if lows.isEmpty then none else ccG2Go c lows (rest.drop lows.length) lows.length
    else none
  | [] => none

/-- One attempt of
`/\b([A-Z][a-zà-ÿ]+(?:\s+[A-Z][a-zà-ÿ]+)?),\s*([A-Z][a-zà-ÿ]+(?:\s+[A-Z][a-zà-ÿ]+)?)\b/`. -/
def ccMatchAt (prev : Option Char) (cs : List Char) : Option (String × String) :=
  if (match prev with | some p => isWordC p | none => false) then none
  else
    match ccWord cs with
    | some (w1, r1) =>
      let sp := r1.takeWhile isSpaceJS
      let cityRest : Option (List Char × List Char) :=
        if sp.length ≥ 1 then
          match ccWord (r1.drop sp.length) with
          | some (w1b, r1b) =>
            if r1b.head? = some ',' then some (w1 ++ sp ++ w1b, r1b.tail) else none
          | none => none
        else if r1.head? = some ',' then some (w1, r1.tail) else none
      match cityRest with
      | some (city, afterComma) =>
        match ccGroup2 (afterComma.dropWhile isSpaceJS) with
        | some country => some ((⟨city⟩ : String), (⟨country⟩ : String))
        | none => none
      | none => none
    | none => none

def ccFirstMatch (s : String) : Option (String × String) := scanLeft ccMatchAt none s.data

def locLabelWords : List String := ["Location", "Adresse", "Address", "Ville", "City"]

/-- Character class `[A-Za-zÀ-ÿ\s,]` of the labelled-location capture. -/
def isLocCapC (c : Char) : Bool :=
  isAsciiAlpha c || (0xC0 ≤ c.toNat && c.toNat ≤ 0xFF) || isSpaceJS c || c = ','

/-- Backtracking of `[\s:]+` before the capture: try the separator run from
longest to shortest (at least one character) until the capture is nonempty. -/
def locSepShrink (r : List Char) : Nat → Option (List Char)
  | 0 => none
  | j + 1 =>
    let cap := (r.drop (j + 1)).takeWhile isLocCapC
    if cap.isEmpty then locSepShrink r j else some cap

/-- One attempt of `/(?:Location|Adresse|Address|Ville|City)[\s:]+([A-Za-zÀ-ÿ\s,]+)/i`. -/
def locLabelTry (cs : List Char) : List String → Option String
  | [] => none
  | lb :: rest =>
    if isPreBy eqCI lb.data cs then
      let r := cs.drop lb.data.length
      let sep := r.takeWhile (fun c => isSpaceJS c || c = ':')
      match locSepShrink r sep.length with
      | some cap => some ⟨cap⟩
      | none => locLabelTry cs rest
    else locLabelTry cs rest

def locLabelMatchAt (_ : Option Char) (cs : List Char) : Option String :=
  locLabelTry cs locLabelWords

def locLabelFirstMatch (s : String) : Option String := scanLeft locLabelMatchAt none s.data

/-- Pattern 2 of `extractLocation`: city names and labelled locations in the
first 20 lines. -/
def locPattern2 : List String → Option String
  | [] => none
  | l :: rest =>
    let trimmed := jsTrim l
    match locValidCities.find? (fun city => jsToLower trimmed = jsToLower city) with
    | some city => some city
    | none =>
      match locLabelFirstMatch trimmed with
      | some cap =>
        let location := jsTrim ⟨cap.data.takeWhile (fun c => c ≠ '\n')⟩
        if !(locTechTerms.any (fun t => jsIncludes location t)) && location.data.length < 50 then
          some location
        else locPattern2 rest
      | none => locPattern2 rest

/-- One attempt of `/\bl\s+([A-Z][a-zà-ÿ]+)\b/`; returns the capture and the
length of the whole match. -/
def lPatMatchAt (prev : Option Char) (cs : List Char) : Option (List Char × Nat) :=
  if (match prev with | some p => isWordC p | none => false) then none
  else
    match cs with
    | 'l' :: r =>
      let sp := r.takeWhile isSpaceJS
      if sp.isEmpty then none
      else
        match ccWord (r.drop sp.length) with
        | some (w, _) =>
          match w with
          | c2 :: lows2 =>
            match shrinkLowsForB c2 lows2 (r.drop (sp.length + w.length)) lows2.length with
            | some cap => some (cap, 1 + sp.length + cap.length)
            | none => none
          | [] => none
        | none => none
    | _ => none

/-- All `/\bl\s+([A-Z][a-zà-ÿ]+)\b/g` captures, scanning resumes after each
match (fuel is the remaining length). -/
def lPatGlobal : Nat → Option Char → List Char → List String
  | 0, _, _ => []
  | _ + 1, _, [] => []
  | fuel + 1, prev, c :: cs =>
    match lPatMatchAt prev (c :: cs) with
    | some (cap, len) =>
      (⟨cap⟩ : String) ::
        lPatGlobal fuel (((c :: cs).take len).getLast? ) ((c :: cs).drop len)
    | none => lPatGlobal fuel (some c) cs

def lPatAllCaptures (s : String) : List String :=
  lPatGlobal (s.data.length + 1) none s.data

/-- First-occurrence-ordered tallies (JS object key insertion order). -/
def tallyInOrder (l : List String) : List (String × Nat) :=
  l.foldl (fun acc s =>
    if acc.any (fun p => p.1 = s) then
      acc.map (fun p => if p.1 = s then (p.1, p.2 + 1) else p)
    else acc ++ [(s, 1)]) []

/-- Stable descending sort by count, then the head: the most frequent
candidate, earliest-inserted on ties. -/
def pickMostCommon (l : List (String × Nat)) : Option String :=
  (l.foldl (fun best p =>
    match best with
    | none => some p
    | some q => if p.2 > q.2 then some p else some q) none).map (fun p => p.1)

def locPattern3 (fullText : String) : Option String :=
  let candidates := (lPatAllCaptures fullText).filter (fun cand =>
    !(locTechTerms.contains cand) && cand.data.length ≥ 3)
  match candidates with
  | [] => none
  | _ :: _ => pickMostCommon (tallyInOrder candidates)

def extractLocation (ctx : ExtractionContext) : String :=
  let fullText := joinSep "\n" ctx.lines
  let p1 : Option String :=
    match ccFirstMatch fullText with
    | some (city0, country0) =>
      let city := jsTrim city0
      let country := jsTrim country0
      if !(locTechTerms.any (fun t => jsIncludes city t || jsIncludes country t)) then
        some (city ++ ", " ++ country)
      else none
    | none => none
  match p1 with
  | some r => r
  | none =>
    match locPattern2 (ctx.lines.take 20) with
    | some r => r
    | none =>
      match locPattern3 fullText with
      | some r => r
      | none => ""

/-! ## Personal info assembly (`extractPersonalInfo`, cvProcessor.ts lines 426–476) -/

structure PersonalInfo where
  full_name : String
  position : String
  email : String
  phone : String
  location : String
  linkedin : String
  age : Option String
  gender : Option String
deriving DecidableEq, Repr

/-- JS `phoneMatch[1].replace(/[\s.\-()]/g, '').trim()` and the 10–15 length
validation (which counts a retained leading `+`). -/
def cleanPhoneOf (cap : String) : String :=
  let cleaned := jsTrim ⟨cap.data.filter (fun c =>
    !(isSpaceJS c || c = '.' || c = '-' || c = '(' || c = ')'))⟩
  if cleaned.data.length < 10 || cleaned.data.length > 15 then "" else cleaned

/-- The phone field of `extractPersonalInfo`: the first match's capture,
cleaned and length-validated, or the empty string. -/
def phoneOf (fullText : String) : String :=
  match phoneFirstMatch fullText with
  | some (_, cap) => cleanPhoneOf cap
  | none => ""

def extractPersonalInfo (ctx : ExtractionContext) : PersonalInfo :=
  let fullText := joinSep "\n" ctx.lines
  let emailMatch := emailFirstMatch fullText
  let phoneMatch := phoneFirstMatch fullText
  { full_name := extractNameMultiPhase ctx.lines emailMatch (phoneMatch.map (fun p => p.1))
    position := extractPosition ctx
    location := extractLocation ctx
    email := match emailMatch with | some m => jsTrim m | none => ""
    phone := phoneOf fullText
    linkedin := match linkedinFirstMatch fullText with
      | some h => "https://linkedin.com/in/" ++ h
      | none => ""
    age := none
    gender := none }

/-! ## Experience extraction (`extractExperienceAdvanced`, cvProcessor.ts
lines 713–868) -/

structure ExperienceEntry where
  position : String
  company : String
  location : String
  startDate : String
  endDate : String
  description : String
  duration : String
deriving DecidableEq, Repr

/-- The `endYear` local of the source: a number or a string such as
`'Present'`. -/
inductive EndY where
  | num : Int → EndY
  | txt : String → EndY
deriving DecidableEq, Repr

def jsParseIntD (s : String) : Int := (jsParseInt s).getD 0

/-- Exactly `n` digits at the head (`\d{n}` with an exact counter). -/
def takeNDigits (cs : List Char) (n : Nat) : Option (List Char × List Char) :=
  let d := cs.take n
  if d.length = n && d.all Char.isDigit then some (d, cs.drop n) else none

def is4DigitStr (s : String) : Bool := s.data.length = 4 && s.data.all Char.isDigit

def presentWords : List String := ["present", "current", "aujourd'hui", "actuel", "now"]

def presentWordsP3 : List String := ["present", "current", "aujourd'hui", "actuel"]

/-- A case-insensitive word alternation followed by `\b`; alternatives are
tried in source order, returning the text slice matched. -/
def wordAltAt (cs : List Char) : List String → Option (List Char × List Char)
  | [] => none
  | w :: rest =>
    if isPreBy eqCI w.data cs then
      let m := cs.take w.data.length
      let r := cs.drop w.data.length
      if boundB m.getLast? r.head? then some (m, r) else wordAltAt cs rest
    else wordAltAt cs rest

structure DateGroups where
  g1 : String
  g2 : Option String
  g4 : Option String
deriving DecidableEq, Repr

/-- One attempt of the first date pattern
`/\b(\d{2})\/(\d{4})\s*[-–—]\s*(?:(\d{2})\/(\d{4})|(?:present|current|aujourd'hui|actuel|now))\b/gi`. -/
def dateP1At (prev : Option Char) (cs : List Char) : Option DateGroups :=
  if (match prev with | some p => isWordC p | none => false) then none
  else
    match takeNDigits cs 2 with
    | some (g1, r1) =>
      match r1 with
      | '/' :: r2 =>
        match takeNDigits r2 4 with
        | some (g2, r3) =>
          match (r3.dropWhile isSpaceJS) with
          | dsh :: r5 =>
            if isDashC dsh then
              let r6 := r5.dropWhile isSpaceJS
              let altA : Option (List Char) :=
                match takeNDigits r6 2 with
                | some (_, ra) =>
                  match ra with
                  | '/' :: rb =>
                    match takeNDigits rb 4 with
                    | some (g4, rc) => if boundB g4.getLast? rc.head? then some g4 else none
                    | none => none
                  | _ => none
                | none => none
              match altA with
              | some g4 => some ⟨⟨g1⟩, some ⟨g2⟩, some ⟨g4⟩⟩
              | none =>
                match wordAltAt r6 presentWords with
                | some _ => some ⟨⟨g1⟩, some ⟨g2⟩, none⟩
                | none => none
            else none
          | [] => none
        | none => none
      | _ => none
    | none => none

/-- One attempt of the second date pattern
`/\b(\d{4})\s*[-–—]\s*(?:(\d{4})|(?:present|current|aujourd'hui|actuel|now))\b/gi`;
`g2 = none` is the word alternative, whose group 2 is `undefined`. -/
def dateP2At (prev : Option Char) (cs : List Char) : Option DateGroups :=
  if (match prev with | some p => isWordC p | none => false) then none
  else
    match takeNDigits cs 4 with
    | some (g1, r1) =>
      match (r1.dropWhile isSpaceJS) with
      | dsh :: r5 =>
        if isDashC dsh then
          let r6 := r5.dropWhile isSpaceJS
          let altA : Option (List Char) :=
            match takeNDigits r6 4 with
            | some (g2, ra) => if boundB g2.getLast? ra.head? then some g2 else none
            | none => none
          match altA with
          | some g2 => some ⟨⟨g1⟩, some ⟨g2⟩, none⟩
          | none =>
            match wordAltAt r6 presentWords with
            | some _ => some ⟨⟨g1⟩, none, none⟩
            | none => none
        else none
      | [] => none
    | none => none

def monthWords : List String :=
  ["jan", "feb", "mar", "apr", "may", "jun", "jul", "aug", "sep", "oct", "nov", "dec",
   "janv", "févr", "mars", "avr", "mai", "juin", "juil", "août", "sept", "oct", "nov", "déc"]

def isAsciiLower (c : Char) : Bool := 'a' ≤ c && c ≤ 'z'

/-- `(month)[a-z]*\.?`: the first matching month alternative, the trailing
lower-case run and an optional dot; returns the month text slice and the rest. -/
def monthAt (cs : List Char) : List String → Option (List Char × List Char)
  | [] => none
  | m :: rest =>
    if isPreBy eqCI m.data cs then
      let g := cs.take m.data.length
      let r := (cs.drop m.data.length).dropWhile isAsciiLower
      let r2 := match r with | '.' :: t => t | t => t
      some (g, r2)
    else monthAt cs rest

/-- The final `(\d{4}|present|current|aujourd'hui|actuel)\b` group of the
third date pattern. -/
def dateP3End (cs : List Char) : Option (List Char) :=
  match takeNDigits cs 4 with
  | some (g4, ra) => if boundB g4.getLast? ra.head? then some g4 else dateP3EndWords cs
  | none => dateP3EndWords cs
where
  dateP3EndWords (cs : List Char) : Option (List Char) :=
    (wordAltAt cs presentWordsP3).map (fun p => p.1)

/-- One attempt of the third date pattern
`/\b(month)[a-z]*\.?\s+(\d{4})\s*[-–—]\s*(?:(month)[a-z]*\.?\s+)?(\d{4}|present|…)\b/gi`. -/
def dateP3At (prev : Option Char) (cs : List Char) : Option DateGroups :=
  if (match prev with | some p => isWordC p | none => false) then none
  else
    match monthAt cs monthWords with
    | some (g1, r1) =>
      let sp := r1.takeWhile isSpaceJS
      if sp.isEmpty then none
      else
        match takeNDigits (r1.drop sp.length) 4 with
        | some (g2, r3) =>
          match (r3.dropWhile isSpaceJS) with
          | dsh :: r5 =>
            if isDashC dsh then
              let r6 := r5.dropWhile isSpaceJS
              let withMonth2 : Option (List Char) :=
                match monthAt r6 monthWords with
                | some (_, r7) =>
                  let sp2 := r7.takeWhile isSpaceJS
                  if sp2.isEmpty then none else dateP3End (r7.drop sp2.length)
                | none => none
              match withMonth2 with
              | some g4 => some ⟨⟨g1⟩, some ⟨g2⟩, some ⟨g4⟩⟩
              | none =>
                match dateP3End r6 with
                | some g4 => some ⟨⟨g1⟩, some ⟨g2⟩, some ⟨g4⟩⟩
                | none => none
            else none
          | [] => none
        | none => none
    | none => none

def dateP1First (line : String) : Option DateGroups := scanLeft dateP1At none line.data

def dateP2First (line : String) : Option DateGroups := scanLeft dateP2At none line.data

def dateP3First (line : String) : Option DateGroups := scanLeft dateP3At none line.data

/-- Backward context walk (up to five preceding lines): a pipe-delimited line
splits into position/company/location and breaks; otherwise the `l Company`
pattern and a position-shaped line fill empty slots. -/
def compClassC (c : Char) : Bool :=
  isAsciiAlpha c || (0xC0 ≤ c.toNat && c.toNat ≤ 0xFF) || isSpaceJS c

/-- The lazy `[A-Za-zÀ-ÿ\s]+?(?:\s*$)` tail of the company pattern: extend
while the remaining text is not all whitespace. -/
def lazyCompanyGo (acc : List Char) : List Char → Option (List Char)
  | [] => some acc.reverse
  | c :: cs =>
    if (c :: cs).all isSpaceJS then some acc.reverse
    else if compClassC c then lazyCompanyGo (c :: acc) cs
    else none

/-- One attempt of `/\bl\s+([A-Z][A-Za-zÀ-ÿ\s]+?)(?:\s*$)/`. -/
def companyMatchAt (prev : Option Char) (cs : List Char) : Option String :=
  if (match prev with | some p => isWordC p | none => false) then none
  else
    match cs with
    | 'l' :: r =>
      let sp := r.takeWhile isSpaceJS
      if sp.isEmpty then none
      else
        match r.drop sp.length with
        | capC :: r3 =>
          if isCapA capC then
            match r3 with
            | c1 :: r4 =>
              if compClassC c1 then
                (lazyCompanyGo [c1] r4).map (fun t => (⟨capC :: t⟩ : String))
              else none
            | [] => none
          else none
        | [] => none
    | _ => none

def companyFirstMatch (s : String) : Option String := scanLeft companyMatchAt none s.data

def expBackSkipWords : List String := ["Technologies", "Utilisees", "Conception", "Développement"]

def startsWithBullet (s : String) : Bool :=
  match s.data with
  | c :: _ => c = '-' || c = '•'
  | [] => false

def expBackLoop (lines : List String) : List Nat → String × String × String → String × String × String
  | [], st => st
  | j :: rest, (pos, comp, loc) =>
    let prevLine := lines.getD j ""
    if startsWithBullet prevLine || (expBackSkipWords.any (fun w => containsCI prevLine w)) then
      expBackLoop lines rest (pos, comp, loc)
    else if jsIncludes prevLine "|" then
      let parts := (splitCh '|' prevLine).map jsTrim
      (if pos = "" then parts.getD 0 "" else pos,
       if comp = "" then parts.getD 1 "" else comp,
       if loc = "" then parts.getD 2 "" else loc)
    else
      let comp2 :=
        match companyFirstMatch prevLine with
        | some c => if comp = "" then jsTrim c else comp
        | none => comp
      let pos2 :=
        if pos = "" && prevLine.data.length > 5 && prevLine.data.length < 150 &&
            !has4Digits prevLine && prevLine.data.any isCapA then
          prevLine
        else pos
      expBackLoop lines rest (pos2, comp2, loc)

def expDescStopWords : List String := ["EDUCATION", "PROJET", "CERTIFICATION", "COMPETENCES"]

def expDescAddWords : List String :=
  ["Technologies", "Conception", "Développement", "Création", "Intégration", "Implémentation"]

/-- JS `descLine.replace(/^[-•]\s*/, '')`. -/
def stripBullet (s : String) : String :=
  match s.data with
  | c :: cs => if c = '-' || c = '•' then ⟨cs.dropWhile isSpaceJS⟩ else s
  | [] => s

def expDescLoop (lines : List String) : List Nat → String → Nat → String
  | [], desc, _ => desc
  | j :: rest, desc, cnt =>
    let dl := lines.getD j ""
    if hasDateRange dl || (expDescStopWords.any (fun w => startsWithCI dl w)) then desc
    else
      if startsWithBullet dl || (expDescAddWords.any (fun w => containsCI dl w)) then
        let desc2 := desc ++ jsTrim (stripBullet dl) ++ " "
        if cnt + 1 ≥ 5 then desc2 else expDescLoop lines rest desc2 (cnt + 1)
      else expDescLoop lines rest desc cnt

/-- Entry construction (cvProcessor.ts lines 844–856): the duration is
`endYear - startYear` for a numeric end, else `currentYear - startYear`. -/
def mkExperienceEntry (pos comp loc : String) (startYear : Int) (endYear : EndY)
    (currentYear : Int) (desc : String) : ExperienceEntry :=
  { position := if pos = "" then "Position Not Specified" else pos
    company := comp
    location := loc
    startDate := toString startYear
    endDate := match endYear with | EndY.num e => toString e | EndY.txt s => s
    description := jsTrim desc
    duration := match endYear with
      | EndY.num e => toString (e - startYear) ++ " years"
      | EndY.txt _ => toString (currentYear - startYear) ++ " years" }

/-- The context association and entry push for a date found at index `i`. -/
def buildExpEntry (currentYear : Int) (lines : List String) (i : Nat)
    (startYear : Int) (endYear : EndY) : ExperienceEntry :=
  let lo := i - 5
  let (pos, comp, loc) := expBackLoop lines (List.range' lo (i - lo)) ("", "", "")
  let hi := min (i + 15) lines.length
  let desc := expDescLoop lines (List.range' (i + 1) (hi - (i + 1))) "" 0
  mkExperienceEntry pos comp loc startYear endYear currentYear desc

def expHeaderWords : List String := ["EXPERIENCE", "EXPÉRIENCE", "PROFESSIONAL", "PARCOURS"]

def endYearOfSlice (g4 : Option String) : EndY :=
  match g4 with
  | some s => if is4DigitStr s then EndY.num (jsParseIntD s) else EndY.txt s
  | none => EndY.txt "Present"

/-- The `while (i < lines.length)` scan: each iteration tries the three date
patterns in order on the current line; the second pattern's word alternative
leaves group 2 undefined, which the source answers with an extra `i++` and a
`continue` to the next pattern.  Fuel bounds the iteration count (`i` strictly
increases). -/
def extractExpLoop (currentYear : Int) (lines : List String) :
    Nat → Nat → List ExperienceEntry → List ExperienceEntry
  | 0, _, acc => acc
  | fuel + 1, i, acc =>
    if i < lines.length then
      let line := lines.getD i ""
      if expHeaderWords.any (fun w => startsWithCI line w) then
        extractExpLoop currentYear lines fuel (i + 1) acc
      else
        match dateP1First line with
        | some g =>
          let startYear := jsParseIntD (g.g2.getD "")
          let entry := buildExpEntry currentYear lines i startYear (endYearOfSlice g.g4)
          extractExpLoop currentYear lines fuel (i + 1) (acc ++ [entry])
        | none =>
          match dateP2First line with
          | some g =>
            match g.g2 with
            | some y2 =>
              let startYear := jsParseIntD g.g1
              let endYear :=
                if presentWordsP3.any (fun w => containsCI y2 w) then EndY.txt "Present"
                else EndY.num (jsParseIntD y2)
              let entry := buildExpEntry currentYear lines i startYear endYear
              extractExpLoop currentYear lines fuel (i + 1) (acc ++ [entry])
            | none =>
              match dateP3First line with
              | some g3 =>
                let startYear := jsParseIntD (g3.g2.getD "")
                let entry :=
                  buildExpEntry currentYear lines (i + 1) startYear (endYearOfSlice g3.g4)
                extractExpLoop currentYear lines fuel (i + 2) (acc ++ [entry])
              | none => extractExpLoop currentYear lines fuel (i + 2) acc
          | none =>
            match dateP3First line with
            | some g3 =>
              let startYear := jsParseIntD (g3.g2.getD "")
              let entry := buildExpEntry currentYear lines i startYear (endYearOfSlice g3.g4)
              extractExpLoop currentYear lines fuel (i + 1) (acc ++ [entry])
            | none => extractExpLoop currentYear lines fuel (i + 1) acc
    else acc

def extractExperienceAdvanced (currentYear : Int) (ctx : ExtractionContext) :
    List ExperienceEntry :=
  match mapGet ctx.sections "experience" with
  | none => []
  | some sec =>
    let lines := ((jsSplitLines sec.content).map jsTrim).filter (fun l => l.data.length > 0)
    extractExpLoop currentYear lines (lines.length + 1) 0 []

/-! ## Education extraction (`extractEducationAdvanced`, cvProcessor.ts
lines 873–935) -/

structure EducationEntry where
  degree : String
  institution : String
  field_of_study : Option String
  start_date : Option String
  end_date : Option String
deriving DecidableEq, Repr

/-- Length of a `\d{4}\s*[-–—]\s*\d{4}` match at the head. -/
def dateRangeLenAt (cs : List Char) : Option Nat :=
  if take4Digits cs then
    let r1 := cs.drop 4
    let w1 := r1.takeWhile isSpaceJS
    match r1.drop w1.length with
    | d :: r2 =>
      if isDashC d then
        let w2 := r2.takeWhile isSpaceJS
        if take4Digits (r2.drop w2.length) then some (4 + w1.length + 1 + w2.length + 4)
        else none
      else none
    | [] => none
  else none

/-- The two year groups of a `(\d{4})\s*[-–—]\s*(\d{4})` match at the head. -/
def dateRangeGroupsAt (cs : List Char) : Option (String × String) :=
  if take4Digits cs then
    let r1 := cs.drop 4
    let w1 := r1.takeWhile isSpaceJS
    match r1.drop w1.length with
    | d :: r2 =>
      if isDashC d then
        let w2 := r2.takeWhile isSpaceJS
        if take4Digits (r2.drop w2.length) then
          some (⟨cs.take 4⟩, ⟨(r2.drop w2.length).take 4⟩)
        else none
      else none
    | [] => none
  else none

def dateRangeFirstGroups : List Char → Option (String × String)
  | [] => none
  | c :: cs =>
    match dateRangeGroupsAt (c :: cs) with
    | some r => some r
    | none => dateRangeFirstGroups cs

/-- JS `s.replace(pat, '')` for a single leftmost match whose extent
`matchLen` reports. -/
def replFirstGo (matchLen : List Char → Option Nat) : List Char → List Char
  | [] => []
  | c :: cs =>
    match matchLen (c :: cs) with
    | some len => (c :: cs).drop len
    | none => c :: replFirstGo matchLen cs

def removeDateRangeFirst (s : String) : String := ⟨replFirstGo dateRangeLenAt s.data⟩

def fourRunLenAt (cs : List Char) : Option Nat := if take4Digits cs then some 4 else none

def remove4First (s : String) : String := ⟨replFirstGo fourRunLenAt s.data⟩

def first4Run : List Char → Option String
  | [] => none
  | c :: cs => if take4Digits (c :: cs) then some ⟨(c :: cs).take 4⟩ else first4Run cs

def degreeKeywordsOf (code : LangCode) : List String :=
  if code = LangCode.fr then
    ["Ingénieur", "Master", "Licence", "DUT", "BTS", "Diplôme", "Doctorat", "Bachelor", "Technicien"]
  else
    ["Engineer", "Master", "Bachelor", "Degree", "Diploma", "PhD", "Doctorate", "Associate", "Certificate"]

def institutionKeywords : List String :=
  ["Université", "University", "École", "School", "Institut", "Institute",
   "Faculté", "Faculty", "College", "ISTA"]

/-- One attempt of `` `(${institutionKeywords.join('|')})[^\d|]*` `` (no word
boundaries): the first alternative matching here, then the greedy
no-digit-no-pipe run. -/
def instMatchAtGo (cs : List Char) : List String → Option (List Char)
  | [] => none
  | k :: rest =>
    if isPreBy eqCI k.data cs then
      some (cs.take k.data.length ++
        (cs.drop k.data.length).takeWhile (fun c => !c.isDigit && c ≠ '|'))
    else instMatchAtGo cs rest

def instFirstMatch : List Char → Option String
  | [] => none
  | c :: cs =>
    match instMatchAtGo (c :: cs) institutionKeywords with
    | some m => some ⟨m⟩
    | none => instFirstMatch cs

/-- JS `hay.indexOf(sub)` (case sensitive; `none` models `-1`). -/
def idxOfGo (sub : List Char) : Nat → List Char → Option Nat
  | i, [] => if isPreBy (fun a b => a = b) sub [] then some i else none
  | i, c :: cs =>
    if isPreBy (fun a b => a = b) sub (c :: cs) then some i else idxOfGo sub (i + 1) cs

def extractEducationAdvanced (ctx : ExtractionContext) : List EducationEntry :=
  match mapGet ctx.sections "education" with
  | none => []
  | some sec =>
    let lines := (jsSplitLines sec.content).filter (fun l => jsTrim l ≠ "")
    lines.foldl (fun acc l =>
      let line := jsTrim l
      if startsWithCI line "EDUCATION" || startsWithCI line "FORMATION" ||
          startsWithCI line "ÉDUCATION" then acc
      else
        let hasDegree := (degreeKeywordsOf ctx.language.code).any (fun kw => testWordB line kw)
        let hasInstitution := institutionKeywords.any (fun kw => testWordB line kw)
        if hasDegree || hasInstitution then
          let dateM := dateRangeFirstGroups line.data
          let dj : String × String :=
            if jsIncludes line "|" then
              let parts := (splitCh '|' line).map jsTrim
              (if parts.getD 0 "" = "" then line else parts.getD 0 "", parts.getD 1 "")
            else
              match instFirstMatch line.data with
              | some m =>
                let instIndex := (idxOfGo m.data 0 line.data).getD 0
                (jsTrim ⟨line.data.take instIndex⟩, jsTrim m)
              | none => (line, "")
          acc ++ [{ degree := jsTrim (removeDateRangeFirst dj.1),
                    institution := jsTrim (removeDateRangeFirst dj.2),
                    field_of_study := none,
                    start_date := dateM.map (fun p => p.1),
                    end_date := dateM.map (fun p => p.2) }]
        else acc) []

/-! ## Skills extraction (`extractSkillsAdvanced`, cvProcessor.ts lines 940–1028) -/

/-- The skill lexicon, written as the literal text each (escaped) regex entry
matches; the name added to the set is the same text (backslashes stripped). -/
def skillDatabase : List String :=
  ["JavaScript", "TypeScript", "Python", "Java", "C++", "C#", "PHP", "Ruby", "Go", "Rust",
   "Kotlin", "Swift", "Scala", "Dart", "R", "MATLAB", "Perl", "Objective-C",
   "React", "Angular", "Vue.js", "Svelte", "Next.js", "Nuxt", "Gatsby", "Ember",
   "Backbone", "jQuery", "Redux", "MobX", "Vuex",
   "Node.js", "Express", "Django", "Flask", "FastAPI", "Spring", "Spring Boot",
   "Laravel", "Symfony", "ASP.NET", "Rails", "Ruby on Rails", "Gin", "Echo",
   "MySQL", "PostgreSQL", "MongoDB", "Redis", "Elasticsearch", "Firebase",
   "DynamoDB", "Oracle", "SQL Server", "MariaDB", "Cassandra", "Neo4j",
   "SQLite", "CouchDB", "Hibernate", "Sequelize", "Mongoose", "Doctrine",
   "TypeORM", "Prisma", "Knex",
   "AWS", "Azure", "GCP", "Google Cloud", "Docker", "Kubernetes", "Jenkins",
   "GitLab CI", "GitHub Actions", "CircleCI", "Travis CI", "Terraform",
   "Ansible", "Chef", "Puppet", "Vagrant",
   "HTML", "HTML5", "CSS", "CSS3", "SCSS", "SASS", "Less", "Tailwind CSS",
   "Bootstrap", "Material-UI", "Ant Design", "Chakra UI", "Styled Components",
   "React Native", "Flutter", "Ionic", "Xamarin", "Swift", "Kotlin",
   "Android", "iOS", "SwiftUI",
   "REST", "RESTful", "GraphQL", "gRPC", "WebSocket", "SOAP", "API",
   "Jest", "Mocha", "Jasmine", "Cypress", "Selenium", "JUnit", "PyTest",
   "TestNG", "Karma", "Protractor",
   "Git", "GitHub", "GitLab", "Bitbucket", "SVN", "Mercurial",
   "Agile", "Scrum", "Kanban", "Jira", "Trello", "Asana", "Confluence",
   "Microservices", "Serverless", "Lambda", "CI/CD", "Machine Learning",
   "Deep Learning", "TensorFlow", "PyTorch", "NLP", "Data Science",
   "Big Data", "Hadoop", "Spark", "Kafka",
   "Figma", "Sketch", "Adobe XD", "Photoshop", "Illustrator", "InVision",
   "Développement", "Programmation", "Base de données", "Gestion de projet",
   "Méthodologie Agile", "Intégration continue"]

def extractSkillsAdvanced (ctx : ExtractionContext) : List String :=
  let fullText := joinSep "\n" ctx.lines
  let fromSection :=
    match mapGet ctx.sections "skills" with
    | some sec =>
      skillDatabase.foldl (fun acc sk =>
        if testWordB sec.content sk && !acc.contains sk then acc ++ [sk] else acc) []
    | none => []
  skillDatabase.foldl (fun acc sk =>
    if testWordB fullText sk && !acc.contains sk then acc ++ [sk] else acc) fromSection

/-! ## Language extraction (`extractLanguagesAdvanced`, cvProcessor.ts
lines 1033–1094) -/

def langAltWords : List String :=
  ["English", "French", "Spanish", "German", "Arabic", "Chinese", "Japanese",
   "Portuguese", "Italian", "Dutch", "Russian", "Korean", "Turkish", "Hindi",
   "Anglais", "Français", "Espagnol", "Allemand", "Arabe", "Chinois", "Japonais",
   "Portugais", "Italien", "Néerlandais", "Russe", "Coréen", "Turc"]

def langMap : List (String × String) :=
  [("anglais", "english"), ("français", "french"), ("espagnol", "spanish"),
   ("allemand", "german"), ("arabe", "arabic"), ("chinois", "chinese"),
   ("japonais", "japanese"), ("portugais", "portuguese"), ("italien", "italian"),
   ("néerlandais", "dutch"), ("russe", "russian"), ("coréen", "korean"),
   ("turc", "turkish")]

def langMatchAt (prev : Option Char) (cs : List Char) : Option (List Char) :=
  (langAltWords.find? (fun w => wordMatchHere w.data prev cs)).map
    (fun w => cs.take w.data.length)

def langGlobal : Nat → Option Char → List Char → List String
  | 0, _, _ => []
  | _ + 1, _, [] => []
  | fuel + 1, prev, c :: cs =>
    match langMatchAt prev (c :: cs) with
    | some m =>
      (⟨m⟩ : String) :: langGlobal fuel (m.getLast?) ((c :: cs).drop m.length)
    | none => langGlobal fuel (some c) cs

def extractLanguagesAdvanced (ctx : ExtractionContext) : List String :=
  let searchText :=
    match mapGet ctx.sections "languages" with
    | some sec => sec.content
    | none => joinSep "\n" ctx.lines
  let found := langGlobal (searchText.data.length + 1) none searchText.data
  found.foldl (fun acc m =>
    let normalized := jsToLower m
    let finalLang := (((langMap.find? (fun p => p.1 = normalized)).map (fun p => p.2)).getD normalized)
    if acc.contains finalLang then acc else acc ++ [finalLang]) []

/-! ## Certifications (`extractCertificationsAdvanced`, cvProcessor.ts
lines 1099–1141) -/

structure CertEntry where
  name : String
  issuer : String
  date : String
deriving DecidableEq, Repr

def certSkipWords : List String :=
  ["BACHELOR", "MASTER", "ENGINEER", "INGÉNIEUR", "LICENCE", "DEGREE",
   "DIPLOMA", "UNIVERSITY", "UNIVERSITÉ"]

def extractCertificationsAdvanced (ctx : ExtractionContext) : List CertEntry :=
  match mapGet ctx.sections "certifications" with
  | none => []
  | some sec =>
    let lines := (jsSplitLines sec.content).filter (fun l => jsTrim l ≠ "")
    lines.foldl (fun acc l =>
      let trimmed := jsTrim l
      if startsWithCI trimmed "CERTIFICATION" || startsWithCI trimmed "CERTIFICAT" ||
          trimmed = "" then acc
      else if startsWithBullet trimmed then
        let cert := jsTrim (stripBullet trimmed)
        if certSkipWords.any (fun w => startsWithCI cert w) then acc
        else if cert.data.length > 3 && cert.data.length < 300 then
          acc ++ [{ name := jsTrim (remove4First cert),
                    issuer := "",
                    date := (first4Run cert.data).getD "" }]
        else acc
      else acc) []

/-! ## Projects (`extractProjectsAdvanced`, cvProcessor.ts lines 1146–1207) -/

structure ProjectEntry where
  name : String
  description : String
  date : String
deriving DecidableEq, Repr

structure ProjState where
  curName : String
  curDesc : String
  curDate : String
  out : List ProjectEntry
deriving DecidableEq, Repr

/-- JS `s.replace(/[-•]/, '')`: drop the first hyphen or bullet anywhere. -/
def removeBulletFirst (s : String) : String :=
  ⟨replFirstGo (fun cs => match cs with
    | c :: _ => if c = '-' || c = '•' then some 1 else none
    | [] => none) s.data⟩

/-- One iteration of the project loop: a line with a four-digit run flushes
the current project and starts a new one; a bullet line flushes when a
description is already accumulated, else appends; a continuation line appends
while a project is active. -/
def projStep (st : ProjState) (line : String) : ProjState :=
  let trimmed := jsTrim line
  if trimmed = "" || startsWithCI trimmed "PROJET" || startsWithCI trimmed "PROJECT" then st
  else
    match first4Run trimmed.data with
    | some y =>
      let out2 :=
        if st.curName ≠ "" then
          st.out ++ [{ name := st.curName, description := jsTrim st.curDesc, date := st.curDate }]
        else st.out
      { curName := jsTrim (removeBulletFirst (remove4First trimmed)),
        curDesc := "", curDate := y, out := out2 }
    | none =>
      if startsWithBullet trimmed then
        let stripped := stripBullet trimmed
        if st.curName ≠ "" && st.curDesc ≠ "" then
          { curName := "", curDesc := stripped ++ " ", curDate := st.curDate,
            out := st.out ++
              [{ name := st.curName, description := jsTrim st.curDesc, date := st.curDate }] }
        else { st with curDesc := st.curDesc ++ stripped ++ " " }
      else if st.curName ≠ "" then { st with curDesc := st.curDesc ++ trimmed ++ " " }
      else st

def projFlush (st : ProjState) : List ProjectEntry :=
  if st.curName ≠ "" then
    st.out ++ [{ name := st.curName, description := jsTrim st.curDesc, date := st.curDate }]
  else st.out

def projRun (st : ProjState) (lines : List String) : List ProjectEntry :=
  projFlush (lines.foldl projStep st)

def extractProjectsAdvanced (ctx : ExtractionContext) : List ProjectEntry :=
  match mapGet ctx.sections "projects" with
  | none => []
  | some sec => projRun ⟨"", "", "", []⟩ (jsSplitLines sec.content)

/-! ## Derived metrics (cvProcessor.ts lines 1212–1273, 1441–1467) -/

/-- `calculateExperienceYears`: sum `end - start` over entries with parseable
dates and `end ≥ start`; `'Present'` (either case) resolves to the current
calendar year. -/
def calcExperienceYears (currentYear : Int) (experience : List ExperienceEntry) : Int :=
  experience.foldl (fun tot exp =>
    let startP := jsParseInt exp.startDate
    let endP : Option Int :=
      if exp.endDate = "Present" || jsToLower exp.endDate = "present" then some currentYear
      else jsParseInt exp.endDate
    match startP, endP with
    | some s, some e => if e ≥ s then tot + (e - s) else tot
    | _, _ => tot) 0

def advancedDegreeWords : List String := ["master", "phd", "doctorate", "ingénieur"]

def leadRoleWords : List String := ["lead", "senior", "principal", "architect", "chief", "director"]

def estimateSeniority (years : Int) (experience : List ExperienceEntry)
    (education : List EducationEntry) : String :=
  let hasAdvancedDegree := education.any (fun e =>
    advancedDegreeWords.any (fun w => containsCI e.degree w))
  let hasLeadRole := experience.any (fun e =>
    leadRoleWords.any (fun w => containsCI e.position w))
  if years = 0 && education.isEmpty then "Entry Level"
  else if years < 2 && !hasAdvancedDegree then "Junior"
  else if years < 5 then (if hasLeadRole then "Mid-Senior" else "Mid Level")
  else if years < 10 then (if hasLeadRole then "Senior" else "Mid-Senior")
  else "Lead/Principal"

def industryBuckets : List (String × List String) :=
  [("Software Development", ["react", "angular", "node", "python", "java", "developer", "software"]),
   ("Data Science", ["machine learning", "data science", "tensorflow", "pytorch", "nlp", "analytics"]),
   ("DevOps", ["docker", "kubernetes", "aws", "azure", "terraform", "jenkins", "ci/cd"]),
   ("Mobile Development", ["react native", "flutter", "ios", "android", "mobile"]),
   ("Web Development", ["html", "css", "javascript", "frontend", "backend", "full stack"]),
   ("Cloud Computing", ["aws", "azure", "gcp", "cloud", "serverless", "lambda"])]

def detectIndustry (skills : List String) (experience : List ExperienceEntry) : String :=
  let skillText := jsToLower (joinSep " " skills)
  let experienceText := jsToLower (joinSep " " (experience.map (fun e => e.description)))
  let combined := skillText ++ " " ++ experienceText
  (industryBuckets.foldl (fun (best : Nat × String) b =>
    let score := (b.2.filter (fun kw => jsIncludes combined kw)).length
    if score > best.1 then (score, b.1) else best) (0, "")).2

/-- `calculateConfidenceScore`: the additive point system capped at 0.95. -/
def calculateConfidenceScore (personalInfo : PersonalInfo) (experience : List ExperienceEntry)
    (education : List EducationEntry) (skills : List String) : ℚ :=
  let s1 : ℚ :=
    if personalInfo.full_name ≠ "" ∧ personalInfo.full_name ≠ "Name Not Found" then 0.2 else 0
  let s2 := s1 + (if personalInfo.email ≠ "" then (0.15 : ℚ) else 0)
  let s3 := s2 + (if personalInfo.phone ≠ "" then (0.1 : ℚ) else 0)
  let s4 := s3 + (if experience.length > 0 then (0.25 : ℚ) else 0)
  let s5 := s4 + (if education.length > 0 then (0.15 : ℚ) else 0)
  let s6 := s5 + (if skills.length > 5 then (0.15 : ℚ) else 0)
  min s6 0.95

/-! ## Result assembly (`performAdvancedExtraction`, cvProcessor.ts
lines 250–292) and the non-LLM summary (lines 1278–1318) -/

structure CVMetadata where
  total_experience_years : Int
  seniority_level : String
  industry : String
  keywords : List String
deriving DecidableEq, Repr

structure CVExtractionResult where
  confidence_score : ℚ
  photo_detected : Bool
  personal_info : PersonalInfo
  education : List EducationEntry
  experience : List ExperienceEntry
  skills : List String
  languages : List String
  certifications : List CertEntry
  internships : List ProjectEntry
  metadata : CVMetadata
deriving DecidableEq, Repr

def performAdvancedExtraction (currentYear : Int) (text documentType : String) :
    CVExtractionResult :=
  let context := buildExtractionContext text documentType
  let personalInfo := extractPersonalInfo context
  let experience := extractExperienceAdvanced currentYear context
  let education := extractEducationAdvanced context
  let skills := extractSkillsAdvanced context
  let languages := extractLanguagesAdvanced context
  let certifications := extractCertificationsAdvanced context
  let projects := extractProjectsAdvanced context
  let totalExperienceYears := calcExperienceYears currentYear experience
  { confidence_score := calculateConfidenceScore personalInfo experience education skills
    photo_detected := false
    personal_info := personalInfo
    education := education
    experience := experience
    skills := skills
    languages := languages
    certifications := certifications
    internships := projects
    metadata :=
      { total_experience_years := totalExperienceYears
        seniority_level := estimateSeniority totalExperienceYears experience education
        industry := detectIndustry skills experience
        keywords := skills ++ languages } }

/-- The name clause of `generateAdvancedSummary`, pushed only for a found,
non-placeholder name. -/
def nameClause (data : CVExtractionResult) : List String :=
  if data.personal_info.full_name ≠ "" ∧ data.personal_info.full_name ≠ "Name Not Found" then
    [data.personal_info.full_name]
  else []

/-- The `working as <position>` / `<seniority> professional` clause. -/
def roleClause (data : CVExtractionResult) : List String :=
  if data.personal_info.position ≠ "" then
    ["working as " ++ data.personal_info.position]
  else if data.metadata.seniority_level ≠ "Entry Level" then
    [data.metadata.seniority_level ++ " professional"]
  else []

def industryClause (data : CVExtractionResult) : List String :=
  if data.metadata.industry ≠ "" then ["in " ++ data.metadata.industry] else []

def expCountClause (data : CVExtractionResult) : List String :=
  if data.experience.length > 0 then
    [toString data.experience.length ++ " professional experience(s)"]
  else []

def eduCountClause (data : CVExtractionResult) : List String :=
  if data.education.length > 0 then
    [toString data.education.length ++ " educational qualification(s)"]
  else []

def skillListClause (data : CVExtractionResult) : List String :=
  if data.skills.length > 0 then
    ["Skilled in: " ++ joinSep ", " (data.skills.take 6)]
  else []

def langListClause (data : CVExtractionResult) : List String :=
  if data.languages.length > 0 then
    ["Languages: " ++ joinSep ", " data.languages]
  else []

/-- The `parts` array of `generateAdvancedSummary`: name clause, then the
position / seniority clause, then the industry clause, each pushed only when
its source is non-empty. -/
def summaryParts (data : CVExtractionResult) : List String :=
  nameClause data ++ roleClause data ++ industryClause data

/-- The `details` array of `generateAdvancedSummary`. -/
def summaryDetails (data : CVExtractionResult) : List String :=
  expCountClause data ++ eduCountClause data ++ skillListClause data ++ langListClause data

def generateAdvancedSummary (data : CVExtractionResult) : String :=
  joinSep " " (summaryParts data) ++ ". " ++
    joinSep ". " (summaryDetails data) ++ "."

/-! ## Claim theorems -/

set_option maxRecDepth 40000

/-- The integer comparison of `classifyLanguage` is exactly the source's
`score * 1.5` margin over the rationals. -/
theorem classifyLanguage_iff (f e : Nat) :
    (classifyLanguage f e = LangCode.fr ↔ (f : ℚ) > (e : ℚ) * 1.5) ∧
    (classifyLanguage f e = LangCode.en ↔ (e : ℚ) > (f : ℚ) * 1.5) ∧
    (classifyLanguage f e = LangCode.mixed ↔
      ¬((f : ℚ) > (e : ℚ) * 1.5) ∧ ¬((e : ℚ) > (f : ℚ) * 1.5)) := by
  have key : ∀ a b : Nat, ((a : ℚ) > (b : ℚ) * 1.5) ↔ 2 * a > 3 * b := by
    intro a b
    constructor
    · intro h
      have : ((3 * b : Nat) : ℚ) < ((2 * a : Nat) : ℚ) := by push_cast; nlinarith
      exact_mod_cast this
    · intro h
      have : ((3 * b : Nat) : ℚ) < ((2 * a : Nat) : ℚ) := by exact_mod_cast h
      push_cast at this
      nlinarith
  unfold classifyLanguage
  rw [key, key]
  split_ifs with h1 h2
  · refine ⟨by simp [h1], ⟨fun h => absurd h (by simp), fun h => ((by omega : False)).elim⟩,
      ⟨fun h => absurd h (by simp), fun h => (h.1 h1).elim⟩⟩
  · refine ⟨⟨fun h => absurd h (by simp), fun h => ((by omega : False)).elim⟩, by simp [h2],
      ⟨fun h => absurd h (by simp), fun h => (h.2 h2).elim⟩⟩
  · refine ⟨⟨fun h => absurd h (by simp), fun h => (h1 h).elim⟩,
      ⟨fun h => absurd h (by simp), fun h => (h2 h).elim⟩, by simp [h1, h2]⟩

/-- C8: for every input text the detector classifies `fr` exactly when
`frenchScore > englishScore * 1.5`, `en` exactly when
`englishScore > frenchScore * 1.5`, and `mixed` otherwise; in particular
scores 10/3 give `fr` and 10/8 give `mixed`. -/
theorem language_margin_claim : ∀ text : String,
    ((detectLanguage text).code = LangCode.fr ↔
      ((detectLanguage text).frenchScore : ℚ) > ((detectLanguage text).englishScore : ℚ) * 1.5) ∧
    ((detectLanguage text).code = LangCode.en ↔
      ((detectLanguage text).englishScore : ℚ) > ((detectLanguage text).frenchScore : ℚ) * 1.5) ∧
    ((detectLanguage text).code = LangCode.mixed ↔
      (¬(((detectLanguage text).frenchScore : ℚ) > ((detectLanguage text).englishScore : ℚ) * 1.5) ∧
       ¬(((detectLanguage text).englishScore : ℚ) > ((detectLanguage text).frenchScore : ℚ) * 1.5))) ∧
    classifyLanguage 10 3 = LangCode.fr ∧ classifyLanguage 10 8 = LangCode.mixed := by
  intro text
  have h := classifyLanguage_iff (frenchScoreOf text) (englishScoreOf text)
  exact ⟨h.1, h.2.1, h.2.2, by decide, by decide⟩

/-- C3 counterexample: the empty input has both scores zero, yet the detector
returns `mixed`, not `en` — the final `else` overwrites the initial `'en'`. -/
theorem detectLanguage_zero_counterexample :
    (detectLanguage "").frenchScore = 0 ∧ (detectLanguage "").englishScore = 0 ∧
      (detectLanguage "").code ≠ LangCode.en := by
  refine ⟨by decide, by decide, by decide⟩

/-- C3 amended: an input with both keyword scores zero yields confidence 0.5
and code `mixed` (not `en`: neither margin condition holds, so the final
`else` branch assigns `mixed`). -/
theorem detectLanguage_zero_amended (text : String)
    (h1 : frenchScoreOf text = 0) (h2 : englishScoreOf text = 0) :
    (detectLanguage text).confidence = 0.5 ∧ (detectLanguage text).code = LangCode.mixed := by
  unfold detectLanguage
  rw [h1, h2]
  norm_num [classifyLanguage]

/-- Witness for the amended C3 at the empty input. -/
theorem detectLanguage_zero_amended_witness :
    (detectLanguage "").confidence = 0.5 ∧ (detectLanguage "").code = LangCode.mixed :=
  detectLanguage_zero_amended "" (by decide) (by decide)

theorem dropWhile_false {p : Char → Bool} :
    ∀ l : List Char, (∀ c ∈ l, p c = false) → List.dropWhile p l = l
  | [], _ => rfl
  | c :: cs, h => by simp [List.dropWhile, h c (by simp)]

/-- Trimming is the identity on a string with no whitespace characters. -/
theorem jsTrim_no_space (l : List Char) (h : ∀ c ∈ l, isSpaceJS c = false) :
    jsTrim ⟨l⟩ = ⟨l⟩ := by
  have h2 : ∀ c ∈ l.reverse, isSpaceJS c = false := fun c hc => h c (List.mem_reverse.mp hc)
  simp [jsTrim, jsTrimL, dropWhile_false l h, dropWhile_false l.reverse h2]

def phoneSepC (c : Char) : Bool := isSpaceJS c || c = '.' || c = '-' || c = '(' || c = ')'

theorem cleanPhone_shape (cap : String) :
    cleanPhoneOf cap = "" ∨
    (cleanPhoneOf cap = (⟨cap.data.filter (fun c => !phoneSepC c)⟩ : String) ∧
      10 ≤ (cleanPhoneOf cap).data.length ∧ (cleanPhoneOf cap).data.length ≤ 15 ∧
      (cap.data.head? = some '+' → (cleanPhoneOf cap).data.head? = some '+')) := by
  have hns : ∀ c ∈ cap.data.filter (fun c => !phoneSepC c), isSpaceJS c = false := by
    intro c hc
    have := List.of_mem_filter hc
    simp [phoneSepC] at this
    simp [this.1]
  have htrim := jsTrim_no_space (cap.data.filter (fun c => !phoneSepC c)) hns
  unfold cleanPhoneOf
  have heq : (fun c => !(isSpaceJS c || c = '.' || c = '-' || c = '(' || c = ')')) =
      (fun c => !phoneSepC c) := by
    funext c; simp [phoneSepC]
  rw [heq, htrim]
  dsimp only
  split_ifs with h
  · left; rfl
  · right
    simp only [Bool.or_eq_true, decide_eq_true_eq, not_or, not_lt] at h
    refine ⟨rfl, h.1, h.2, ?_⟩
    intro hh
    rcases hd : cap.data with _ | ⟨c, t⟩
    · rw [hd] at hh; simp at hh
    · rw [hd] at hh
      simp only [List.head?_cons, Option.some.injEq] at hh
      subst hh
      simp [List.filter_cons, phoneSepC, isSpaceJS]

/-- C10: the extracted phone is the first match's capture group with the
separator characters of `[\s.\-()]` removed and a leading `+` retained, and
the 10–15 length validation is applied to that cleaned string counting the
`+` as a character: `+` followed by 15 digits is rejected (empty phone),
while `+` followed by 10 digits is returned as an 11-character string
beginning with `+`. -/
theorem phone_validation_claim :
    (∀ text : String,
      phoneOf text = "" ∨
      ∃ full cap, phoneFirstMatch text = some (full, cap) ∧
        phoneOf text = (⟨cap.data.filter (fun c => !phoneSepC c)⟩ : String) ∧
        10 ≤ (phoneOf text).data.length ∧ (phoneOf text).data.length ≤ 15 ∧
        (cap.data.head? = some '+' → (phoneOf text).data.head? = some '+')) ∧
    phoneOf "+123456789012345" = "" ∧
    phoneOf "+1234567890" = "+1234567890" ∧ (phoneOf "+1234567890").data.length = 11 := by
  refine ⟨?_, by decide, by decide, by decide⟩
  intro text
  rcases hm : phoneFirstMatch text with _ | ⟨full, cap⟩
  · left
    unfold phoneOf
    rw [hm]
  · have hp : phoneOf text = cleanPhoneOf cap := by unfold phoneOf; rw [hm]
    rcases cleanPhone_shape cap with h | ⟨h1, h2, h3, h4⟩
    · left; rw [hp, h]
    · right
      exact ⟨full, cap, rfl, by rw [hp, h1], by rw [hp]; exact h2, by rw [hp]; exact h3,
        fun hh => by rw [hp]; exact h4 hh⟩

theorem ite_nonneg_q (c : Prop) [Decidable c] (x : ℚ) (hx : 0 ≤ x) :
    0 ≤ if c then x else 0 := by
  split
  · exact hx
  · exact le_refl 0

/-- The additive score is within the claimed bounds for any arguments. -/
theorem confidence_bounds (pi : PersonalInfo) (exp : List ExperienceEntry)
    (edu : List EducationEntry) (sk : List String) :
    0 ≤ calculateConfidenceScore pi exp edu sk ∧
      calculateConfidenceScore pi exp edu sk ≤ 0.95 := by
  unfold calculateConfidenceScore
  dsimp only
  refine ⟨le_min ?_ (by norm_num), min_le_right _ _⟩
  repeat' apply add_nonneg
  all_goals exact ite_nonneg_q _ _ (by norm_num)

/-- C4: the confidence score is the additive point system capped at 0.95,
hence bounded by `[0, 0.95]` for every input, and the empty-string input
yields score 0 with name `"Name Not Found"` and every other personal-info
field empty or null. -/
theorem confidence_score_claim :
    ∀ (pi : PersonalInfo) (exp : List ExperienceEntry) (edu : List EducationEntry)
      (sk : List String) (Y : Int) (text dt : String),
    (calculateConfidenceScore pi exp edu sk =
      min ((if pi.full_name ≠ "" ∧ pi.full_name ≠ "Name Not Found" then (0.2 : ℚ) else 0) +
           (if pi.email ≠ "" then (0.15 : ℚ) else 0) +
           (if pi.phone ≠ "" then (0.1 : ℚ) else 0) +
           (if exp.length > 0 then (0.25 : ℚ) else 0) +
           (if edu.length > 0 then (0.15 : ℚ) else 0) +
           (if sk.length > 5 then (0.15 : ℚ) else 0)) 0.95) ∧
    (0 ≤ (performAdvancedExtraction Y text dt).confidence_score ∧
      (performAdvancedExtraction Y text dt).confidence_score ≤ 0.95) ∧
    ((performAdvancedExtraction Y "" dt).confidence_score = 0 ∧
      (performAdvancedExtraction Y "" dt).personal_info.full_name = "Name Not Found" ∧
      (performAdvancedExtraction Y "" dt).personal_info.position = "" ∧
      (performAdvancedExtraction Y "" dt).personal_info.email = "" ∧
      (performAdvancedExtraction Y "" dt).personal_info.phone = "" ∧
      (performAdvancedExtraction Y "" dt).personal_info.location = "" ∧
      (performAdvancedExtraction Y "" dt).personal_info.linkedin = "" ∧
      (performAdvancedExtraction Y "" dt).personal_info.age = none ∧
      (performAdvancedExtraction Y "" dt).personal_info.gender = none) := by
  intro pi exp edu sk Y text dt
  refine ⟨rfl, ⟨(confidence_bounds _ _ _ _).1, (confidence_bounds _ _ _ _).2⟩,
    ?_, rfl, rfl, rfl, rfl, rfl, rfl, rfl, rfl⟩
  have hx : (performAdvancedExtraction Y "" dt).confidence_score =
      calculateConfidenceScore ⟨"Name Not Found", "", "", "", "", "", none, none⟩ [] [] [] := rfl
  rw [hx]
  simp [calculateConfidenceScore]
  norm_num

/-- C5: the extraction engine is a total function, and when the section map
is empty (no recognizable headers) the experience, education, certifications
and projects arrays are all empty while personal-info extraction still runs
over the full document's lines. -/
theorem no_sections_claim (Y : Int) (text dt : String)
    (h : identifySections text (detectLanguage text) = []) :
    (performAdvancedExtraction Y text dt).experience = [] ∧
    (performAdvancedExtraction Y text dt).education = [] ∧
    (performAdvancedExtraction Y text dt).certifications = [] ∧
    (performAdvancedExtraction Y text dt).internships = [] ∧
    (performAdvancedExtraction Y text dt).personal_info =
      extractPersonalInfo (buildExtractionContext text dt) := by
  have hs : (buildExtractionContext text dt).sections = [] := h
  refine ⟨?_, ?_, ?_, ?_, rfl⟩
  · show extractExperienceAdvanced Y (buildExtractionContext text dt) = []
    simp [extractExperienceAdvanced, hs, mapGet]
  · show extractEducationAdvanced (buildExtractionContext text dt) = []
    simp [extractEducationAdvanced, hs, mapGet]
  · show extractCertificationsAdvanced (buildExtractionContext text dt) = []
    simp [extractCertificationsAdvanced, hs, mapGet]
  · show extractProjectsAdvanced (buildExtractionContext text dt) = []
    simp [extractProjectsAdvanced, hs, mapGet]

/-- Witness for C5 at a concrete header-free document. -/
theorem no_sections_claim_witness :
    (performAdvancedExtraction 2025 "hello\nworld" "pdf").experience = [] ∧
    (performAdvancedExtraction 2025 "hello\nworld" "pdf").education = [] ∧
    (performAdvancedExtraction 2025 "hello\nworld" "pdf").certifications = [] ∧
    (performAdvancedExtraction 2025 "hello\nworld" "pdf").internships = [] ∧
    (performAdvancedExtraction 2025 "hello\nworld" "pdf").personal_info =
      extractPersonalInfo (buildExtractionContext "hello\nworld" "pdf") :=
  no_sections_claim 2025 "hello\nworld" "pdf" (by decide)

def c1input : String :=
  "JOHN SMITH\njohn.smith@example.com\n+1234567890\nEXPERIENCE\nSoftware Engineer | Acme Corp | NYC\n2019 - 2022\n- Built scalable APIs"

/-- C1 counterexample: on the end-to-end scenario input the claim fails — the
extracted phone is `"+1234567890"` (the leading `+` is retained by the
cleaning step), not `"1234567890"`. -/
theorem endToEnd_scenario_counterexample :
    ¬ ((performAdvancedExtraction 2025 c1input "pdf").personal_info.phone = "1234567890" ∧
       (performAdvancedExtraction 2025 c1input "pdf").personal_info.full_name = "John Smith" ∧
       (performAdvancedExtraction 2025 c1input "pdf").personal_info.email =
         "john.smith@example.com" ∧
       ((performAdvancedExtraction 2025 c1input "pdf").experience.map (fun e => e.position)) =
         ["Software Engineer"]) := by
  intro h
  exact absurd h.1 (by decide)

/-- C1 amended: the scenario yields full_name `"John Smith"`, the expected
email, phone `"+1234567890"` (the `+` is retained), and exactly one
experience entry whose company, location, dates and duration are as claimed
and whose description contains `"Built scalable APIs"` — but whose position
is `"EXPERIENCE"`: the backward context walk reaches the section header line
first, and the pipe-delimited line then only fills the still-empty company
and location slots. -/
theorem endToEnd_scenario_amended : ∀ (Y : Int) (dt : String),
    (performAdvancedExtraction Y c1input dt).personal_info.full_name = "John Smith" ∧
    (performAdvancedExtraction Y c1input dt).personal_info.email = "john.smith@example.com" ∧
    (performAdvancedExtraction Y c1input dt).personal_info.phone = "+1234567890" ∧
    (performAdvancedExtraction Y c1input dt).experience =
      [{ position := "EXPERIENCE", company := "Acme Corp", location := "NYC",
         startDate := "2019", endDate := "2022",
         description := "Built scalable APIs", duration := "3 years" }] ∧
    ((performAdvancedExtraction Y c1input dt).experience.all
      (fun e => jsIncludes e.description "Built scalable APIs")) = true := by
  intro Y dt
  exact ⟨rfl, rfl, rfl, rfl, rfl⟩

def c6input : String := "PROJECTS\nMyApp 2020\n- built x\n- built y"

/-- C6 counterexample: in a projects section with one year line and two bullet
lines, the second bullet is not appended to the project's description — the
project is flushed with only the first bullet and the second bullet's text is
dropped. -/
theorem projects_bullet_counterexample :
    (performAdvancedExtraction 2025 c6input "pdf").internships =
      [{ name := "MyApp", description := "built x", date := "2020" }] ∧
    ¬ (((performAdvancedExtraction 2025 c6input "pdf").internships.any
        (fun p => jsIncludes p.description "built y")) = true) :=
  ⟨rfl, by decide⟩

/-- The description fold of continuation lines in the project loop. -/
def projDescFold (d : String) (cs : List String) : String :=
  cs.foldl (fun acc c => acc ++ jsTrim c ++ " ") d

/-- A continuation line of the projects state machine: non-blank, not a
section header, no four-digit run, not bullet-marked. -/
def projContLine (c : String) : Prop :=
  jsTrim c ≠ "" ∧ startsWithCI (jsTrim c) "PROJET" = false ∧
  startsWithCI (jsTrim c) "PROJECT" = false ∧ first4Run (jsTrim c).data = none ∧
  startsWithBullet (jsTrim c) = false

instance (c : String) : Decidable (projContLine c) := by
  unfold projContLine
  infer_instance

theorem projRun_conts : ∀ (cs : List String) (n d dt : String) (out : List ProjectEntry),
    n ≠ "" → (∀ c ∈ cs, projContLine c) →
    projRun ⟨n, d, dt, out⟩ cs = out ++ [⟨n, jsTrim (projDescFold d cs), dt⟩] := by
  intro cs
  induction cs with
  | nil =>
    intro n d dt out hn _
    simp [projRun, projFlush, projDescFold, hn]
  | cons c cs ih =>
    intro n d dt out hn hc
    obtain ⟨h1, h2, h3, h4, h5⟩ := hc c (by simp)
    have hstep : projStep ⟨n, d, dt, out⟩ c = ⟨n, d ++ jsTrim c ++ " ", dt, out⟩ := by
      simp [projStep, h1, h2, h3, h4, h5, hn]
    have : projRun ⟨n, d, dt, out⟩ (c :: cs) = projRun ⟨n, d ++ jsTrim c ++ " ", dt, out⟩ cs := by
      simp [projRun, List.foldl_cons, hstep]
    rw [this, ih n (d ++ jsTrim c ++ " ") dt out hn (fun x hx => hc x (by simp [hx]))]
    rfl

/-- C6 amended: within the projects section, a line containing a four-digit
run flushes the previously accumulated project and starts a new one whose
date is that run and whose name is the year- and bullet-stripped remainder;
continuation lines that follow are appended to the current project's
description, and the final in-progress project is flushed at section end.
(A bullet line appends only while the description is empty: a second bullet
flushes the project immediately and its text is dropped — see the
counterexample.) -/
theorem projects_state_machine_amended :
    ∀ (st : ProjState) (yl y : String) (cs : List String),
    first4Run (jsTrim yl).data = some y →
    startsWithCI (jsTrim yl) "PROJET" = false →
    startsWithCI (jsTrim yl) "PROJECT" = false →
    jsTrim (removeBulletFirst (remove4First (jsTrim yl))) ≠ "" →
    (∀ c ∈ cs, projContLine c) →
    (projRun st (yl :: cs) =
      projFlush st ++ [⟨jsTrim (removeBulletFirst (remove4First (jsTrim yl))),
        jsTrim (projDescFold "" cs), y⟩]) ∧
    (∀ ctx : ExtractionContext, extractProjectsAdvanced ctx =
      match mapGet ctx.sections "projects" with
      | none => []
      | some sec => projRun ⟨"", "", "", []⟩ (jsSplitLines sec.content)) := by
  intro st yl y cs h1 h2 h3 h4 h5
  refine ⟨?_, fun ctx => rfl⟩
  have hne : jsTrim yl ≠ "" := by
    intro contra
    rw [contra] at h1
    simp [first4Run] at h1
  have hstep : projStep st yl =
      ⟨jsTrim (removeBulletFirst (remove4First (jsTrim yl))), "", y, projFlush st⟩ := by
    simp [projStep, hne, h2, h3, h1, projFlush]
  have hrun : projRun st (yl :: cs) =
      projRun ⟨jsTrim (removeBulletFirst (remove4First (jsTrim yl))), "", y, projFlush st⟩ cs := by
    simp [projRun, List.foldl_cons, hstep]
  rw [hrun, projRun_conts cs _ "" y (projFlush st) h4 h5]

/-- Witness for the amended C6 at a concrete year line, two continuation
lines and a non-empty starting state. -/
theorem projects_state_machine_amended_witness :
    (projRun ⟨"Old", "odesc", "2019", []⟩ ("MyApp 2020" :: ["alpha beta", "gamma"]) =
      projFlush ⟨"Old", "odesc", "2019", []⟩ ++
        [⟨jsTrim (removeBulletFirst (remove4First (jsTrim "MyApp 2020"))),
          jsTrim (projDescFold "" ["alpha beta", "gamma"]), "2020"⟩]) ∧
    (∀ ctx : ExtractionContext, extractProjectsAdvanced ctx =
      match mapGet ctx.sections "projects" with
      | none => []
      | some sec => projRun ⟨"", "", "", []⟩ (jsSplitLines sec.content)) :=
  projects_state_machine_amended ⟨"Old", "odesc", "2019", []⟩ "MyApp 2020" "2020"
    ["alpha beta", "gamma"] (by decide) (by decide) (by decide) (by decide) (by decide)

theorem append_ne_empty_left : ∀ (a b : String), a.data ≠ [] → a ++ b ≠ ""
  | ⟨la⟩, ⟨lb⟩, h => by
    intro contra
    have hd : la ++ lb = [] := congrArg String.data contra
    rcases la with _ | ⟨c, t⟩
    · exact h rfl
    · simp at hd

theorem append_ne_empty_right : ∀ (a b : String), b.data ≠ [] → a ++ b ≠ ""
  | ⟨la⟩, ⟨lb⟩, h => by
    intro contra
    have hd : la ++ lb = [] := congrArg String.data contra
    rcases lb with _ | ⟨c, t⟩
    · exact h rfl
    · simp at hd

/-- C7: the non-LLM summary is the join of the parts and details clause
lists; no clause is ever the empty string, and each clause is omitted
entirely when its source field is empty. -/
theorem summary_template_claim : ∀ data : CVExtractionResult,
    (generateAdvancedSummary data =
      joinSep " " (summaryParts data) ++ ". " ++ joinSep ". " (summaryDetails data) ++ ".") ∧
    ("" ∉ summaryParts data) ∧ ("" ∉ summaryDetails data) ∧
    (¬(data.personal_info.full_name ≠ "" ∧ data.personal_info.full_name ≠ "Name Not Found") →
      summaryParts data = roleClause data ++ industryClause data) ∧
    (data.personal_info.position = "" ∧ data.metadata.seniority_level = "Entry Level" →
      summaryParts data = nameClause data ++ industryClause data) ∧
    (data.metadata.industry = "" → summaryParts data = nameClause data ++ roleClause data) ∧
    (data.experience = [] → summaryDetails data =
      eduCountClause data ++ skillListClause data ++ langListClause data) ∧
    (data.education = [] → summaryDetails data =
      expCountClause data ++ skillListClause data ++ langListClause data) ∧
    (data.skills = [] → summaryDetails data =
      expCountClause data ++ eduCountClause data ++ langListClause data) ∧
    (data.languages = [] → summaryDetails data =
      expCountClause data ++ eduCountClause data ++ skillListClause data) := by
  intro data
  have hname : "" ∉ nameClause data := by
    unfold nameClause
    split_ifs with h
    · simp
      exact fun contra => h.1 contra.symm
    · simp
  have hrole : "" ∉ roleClause data := by
    unfold roleClause
    split_ifs with h1 h2
    · simp
      exact fun contra => append_ne_empty_left "working as " _ (by decide) contra.symm
    · simp
      exact fun contra => append_ne_empty_right _ " professional" (by decide) contra.symm
    · simp
  have hind : "" ∉ industryClause data := by
    unfold industryClause
    split_ifs with h
    · simp
      exact fun contra => append_ne_empty_left "in " _ (by decide) contra.symm
    · simp
  have hexp : "" ∉ expCountClause data := by
    unfold expCountClause
    split_ifs with h
    · simp
      exact fun contra =>
        append_ne_empty_right _ " professional experience(s)" (by decide) contra.symm
    · simp
  have hedu : "" ∉ eduCountClause data := by
    unfold eduCountClause
    split_ifs with h
    · simp
      exact fun contra =>
        append_ne_empty_right _ " educational qualification(s)" (by decide) contra.symm
    · simp
  have hsk : "" ∉ skillListClause data := by
    unfold skillListClause
    split_ifs with h
    · simp
      exact fun contra => append_ne_empty_left "Skilled in: " _ (by decide) contra.symm
    · simp
  have hlang : "" ∉ langListClause data := by
    unfold langListClause
    split_ifs with h
    · simp
      exact fun contra => append_ne_empty_left "Languages: " _ (by decide) contra.symm
    · simp
  refine ⟨rfl, ?_, ?_, ?_, ?_, ?_, ?_, ?_, ?_, ?_⟩
  · simp only [summaryParts, List.mem_append, not_or]
    exact ⟨⟨hname, hrole⟩, hind⟩
  · simp only [summaryDetails, List.mem_append, not_or]
    exact ⟨⟨⟨hexp, hedu⟩, hsk⟩, hlang⟩
  · intro h
    simp [summaryParts, nameClause, h]
  · intro h
    simp [summaryParts, roleClause, h.1, h.2]
  · intro h
    simp [summaryParts, industryClause, h]
  · intro h
    simp [summaryDetails, expCountClause, h]
  · intro h
    simp [summaryDetails, eduCountClause, h]
  · intro h
    simp [summaryDetails, skillListClause, h]
  · intro h
    simp [summaryDetails, langListClause, h]


def expYearAmount (currentYear : Int) (e : ExperienceEntry) : Int :=
  let startP := jsParseInt e.startDate
  let endP : Option Int :=
    if e.endDate = "Present" || jsToLower e.endDate = "present" then some currentYear
    else jsParseInt e.endDate
  match startP, endP with
  | some s, some en => if en ≥ s then en - s else 0
  | _, _ => 0

theorem calcYears_acc (Y : Int) : ∀ (l : List ExperienceEntry) (t : Int),
    l.foldl (fun tot exp =>
      let startP := jsParseInt exp.startDate
      let endP : Option Int :=
        if exp.endDate = "Present" || jsToLower exp.endDate = "present" then some Y
        else jsParseInt exp.endDate
      match startP, endP with
      | some s, some e => if e ≥ s then tot + (e - s) else tot
      | _, _ => tot) t = t + calcExperienceYears Y l := by
  intro l
  induction l with
  | nil => intro t; simp [calcExperienceYears]
  | cons x l ih =>
    intro t
    rw [List.foldl_cons, ih]
    conv_rhs => rw [calcExperienceYears, List.foldl_cons, ih]
    dsimp only
    rcases hsp : jsParseInt x.startDate with _ | s
    · simp
    · rcases hc : (x.endDate = "Present" || jsToLower x.endDate = "present" : Bool)
      · simp only [hc, Bool.false_eq_true, if_false]
        rcases hep : jsParseInt x.endDate with _ | en
        · simp
        · dsimp only
          split <;> ring
      · simp only [hc, if_true]
        split <;> ring

theorem calcYears_cons (Y : Int) (e : ExperienceEntry) (rest : List ExperienceEntry) :
    calcExperienceYears Y (e :: rest) = expYearAmount Y e + calcExperienceYears Y rest := by
  rw [calcExperienceYears, List.foldl_cons, calcYears_acc]
  unfold expYearAmount
  dsimp only
  rcases hsp : jsParseInt e.startDate with _ | s
  · simp
  · rcases hc : (e.endDate = "Present" || jsToLower e.endDate = "present" : Bool)
    · simp only [hc, Bool.false_eq_true, if_false]
      rcases hep : jsParseInt e.endDate with _ | en
      · simp
      · dsimp only
        split <;> ring
    · simp only [hc, if_true]
      split <;> ring

/-- Shape of every produced experience entry. -/
def entryShape (Y : Int) (e : ExperienceEntry) : Prop :=
  ∃ s : Int, e.startDate = toString s ∧
    ((∃ en : Int, e.endDate = toString en ∧ e.duration = toString (en - s) ++ " years") ∨
     e.duration = toString (Y - s) ++ " years")

theorem mkEntry_shape (Y : Int) (pos comp loc : String) (s : Int) (ey : EndY) (desc : String) :
    entryShape Y (mkExperienceEntry pos comp loc s ey Y desc) := by
  cases ey with
  | num en => exact ⟨s, rfl, Or.inl ⟨en, rfl, rfl⟩⟩
  | txt t => exact ⟨s, rfl, Or.inr rfl⟩

theorem extractExpLoop_shape : ∀ (fuel : Nat) (Y : Int) (lines : List String) (i : Nat)
    (acc : List ExperienceEntry), (∀ e ∈ acc, entryShape Y e) →
    ∀ e ∈ extractExpLoop Y lines fuel i acc, entryShape Y e := by
  intro fuel
  induction fuel with
  | zero =>
    intro Y lines i acc hacc e he
    exact hacc e he
  | succ fuel ih =>
    intro Y lines i acc hacc e he
    rw [extractExpLoop] at he
    dsimp only at he
    have happend : ∀ (j : Nat) (sy : Int) (ey : EndY),
        ∀ x ∈ acc ++ [buildExpEntry Y lines j sy ey], entryShape Y x := by
      intro j sy ey x hx
      rcases List.mem_append.mp hx with h | h
      · exact hacc x h
      · rw [List.mem_singleton.mp h]
        exact mkEntry_shape Y _ _ _ sy ey _
    split at he
    · split at he
      · exact ih Y lines _ acc hacc e he
      · split at he
        · exact ih Y lines _ _ (happend _ _ _) e he
        · split at he
          · split at he
            · exact ih Y lines _ _ (happend _ _ _) e he
            · split at he
              · exact ih Y lines _ _ (happend _ _ _) e he
              · exact ih Y lines _ acc hacc e he
          · split at he
            · exact ih Y lines _ _ (happend _ _ _) e he
            · exact ih Y lines _ acc hacc e he
    · exact hacc e he

/-- C9: every extracted experience entry records `startDate = toString s` and
its duration is `endYear - startYear` when the end parsed as a numeric year,
else `currentYear - startYear`; an entry whose endDate is `Present` with a
parseable start `s ≤ Y` contributes `Y - s` to the total experience years —
in particular start 2018 / end `Present` yields duration `(Y-2018) years` and
contributes `Y - 2018`. -/
theorem experience_duration_claim :
    (∀ (Y : Int) (ctx : ExtractionContext) (e : ExperienceEntry),
       e ∈ extractExperienceAdvanced Y ctx →
       ∃ s : Int, e.startDate = toString s ∧
         ((∃ en : Int, e.endDate = toString en ∧ e.duration = toString (en - s) ++ " years") ∨
          e.duration = toString (Y - s) ++ " years")) ∧
    (∀ (Y s : Int) (e : ExperienceEntry) (rest : List ExperienceEntry),
       (e.endDate = "Present" ∨ jsToLower e.endDate = "present") →
       jsParseInt e.startDate = some s → s ≤ Y →
       calcExperienceYears Y (e :: rest) = (Y - s) + calcExperienceYears Y rest) ∧
    (∀ (Y : Int), 2018 ≤ Y → ∀ (pos comp loc desc : String),
       (mkExperienceEntry pos comp loc 2018 (EndY.txt "Present") Y desc).duration =
         toString (Y - 2018) ++ " years" ∧
       calcExperienceYears Y [mkExperienceEntry pos comp loc 2018 (EndY.txt "Present") Y desc] =
         Y - 2018) := by
  have hamount : ∀ (Y s : Int) (e : ExperienceEntry),
      (e.endDate = "Present" ∨ jsToLower e.endDate = "present") →
      jsParseInt e.startDate = some s → s ≤ Y → expYearAmount Y e = Y - s := by
    intro Y s e hp hs hle
    have hcond : (e.endDate = "Present" || jsToLower e.endDate = "present" : Bool) = true := by
      rcases hp with h | h <;> simp [h]
    unfold expYearAmount
    simp only [hcond, if_true, hs]
    rw [if_pos hle]
  have hcons : ∀ (Y s : Int) (e : ExperienceEntry) (rest : List ExperienceEntry),
      (e.endDate = "Present" ∨ jsToLower e.endDate = "present") →
      jsParseInt e.startDate = some s → s ≤ Y →
      calcExperienceYears Y (e :: rest) = (Y - s) + calcExperienceYears Y rest := by
    intro Y s e rest hp hs hle
    rw [calcYears_cons, hamount Y s e hp hs hle]
  refine ⟨?_, hcons, ?_⟩
  · intro Y ctx e he
    unfold extractExperienceAdvanced at he
    rcases hsec : mapGet ctx.sections "experience" with _ | sec
    · rw [hsec] at he
      simp at he
    · rw [hsec] at he
      dsimp only at he
      exact extractExpLoop_shape _ Y _ 0 [] (by simp) e he
  · intro Y hY pos comp loc desc
    refine ⟨rfl, ?_⟩
    have hparse : jsParseInt
        (mkExperienceEntry pos comp loc 2018 (EndY.txt "Present") Y desc).startDate =
        some 2018 := by
      show jsParseInt (toString (2018 : Int)) = some 2018
      decide
    rw [hcons Y 2018 _ [] (Or.inl rfl) hparse hY]
    simp [calcExperienceYears]

/-! ## C2: section-span invariants (`identifySections`) -/

/-- The overlap test of two section spans (a shared line index). -/
def spansOverlapB (a b : SectionSpan) : Bool :=
  max a.start b.start < min a.endIdx b.endIdx

def pairwiseNoOverlapB : SectionMap → Bool
  | [] => true
  | p :: rest => rest.all (fun q => !(spansOverlapB p.2 q.2)) && pairwiseNoOverlapB rest

def insertBySpanStart (x : String × SectionSpan) : SectionMap → SectionMap
  | [] => [x]
  | y :: ys => if x.2.start ≤ y.2.start then x :: y :: ys else y :: insertBySpanStart x ys

def sortSpansByStart (m : SectionMap) : SectionMap := m.foldr insertBySpanStart []

/-- Contiguity in ascending start order: adjacent sections meet and the last
ends at the line count. -/
def chainOkB : SectionMap → Nat → Bool
  | [], _ => true
  | [p], n => p.2.endIdx = n
  | p :: q :: rest, n => p.2.endIdx = q.2.start && chainOkB (q :: rest) n

def sectionMapContiguous (m : SectionMap) (n : Nat) : Prop :=
  chainOkB (sortSpansByStart m) n = true

def c2input : String := "EDUCATION\nEXPERIENCE\nSKILLS\nEXPERIENCE\nx"

/-- C2 counterexample: with the header line "EXPERIENCE" occurring on two
lines, the JS `Map.set` overwrites the earlier "experience" span with the
later one, leaving a gap — the section map is not contiguous. -/
theorem identifySections_contiguity_counterexample :
    ¬ (pairwiseNoOverlapB (identifySections c2input (detectLanguage c2input)) = true ∧
       sectionMapContiguous (identifySections c2input (detectLanguage c2input))
         (jsSplitLines c2input).length) := by
  intro h
  exact absurd h.2 (by unfold sectionMapContiguous; decide)

/-- The spans the `forEach` build writes, in candidate order. -/
def tilingOf (lines : List String) : List (String × Nat) → SectionMap
  | [] => []
  | [(n, i)] => [(n, ⟨i, lines.length, contentSlice lines i lines.length⟩)]
  | (n, i) :: (n2, j) :: rest =>
    (n, ⟨i, j, contentSlice lines i j⟩) :: tilingOf lines ((n2, j) :: rest)

theorem buildSections_eq_foldl (lines : List String) :
    ∀ (starts : List (String × Nat)) (m : SectionMap),
    buildSections lines starts m =
      (tilingOf lines starts).foldl (fun acc p => mapSet acc p.1 p.2) m
  | [], m => rfl
  | [(n, i)], m => rfl
  | (n, i) :: (n2, j) :: rest, m => by
    rw [buildSections, tilingOf, List.foldl_cons]
    exact buildSections_eq_foldl lines ((n2, j) :: rest) _

theorem mem_mapSet (m : SectionMap) (k : String) (v : SectionSpan) :
    ∀ p ∈ mapSet m k v, p = (k, v) ∨ p ∈ m := by
  intro p hp
  unfold mapSet at hp
  split at hp
  · rcases List.mem_map.mp hp with ⟨q, hq, hfq⟩
    by_cases hqk : q.1 = k
    · left
      rw [← hfq]
      simp [hqk]
    · right
      rw [← hfq]
      simpa [hqk] using hq
  · rcases List.mem_append.mp hp with h | h
    · exact Or.inr h
    · exact Or.inl (List.mem_singleton.mp h)

theorem mem_foldl_mapSet :
    ∀ (l : SectionMap) (m : SectionMap) (p : String × SectionSpan),
    p ∈ l.foldl (fun acc q => mapSet acc q.1 q.2) m → p ∈ m ∨ p ∈ l
  | [], m, p, h => Or.inl h
  | q :: l, m, p, h => by
    rw [List.foldl_cons] at h
    rcases mem_foldl_mapSet l _ p h with h2 | h2
    · rcases mem_mapSet m q.1 q.2 p h2 with h3 | h3
      · right
        rw [h3]
        simp
      · exact Or.inl h3
    · right
      exact List.mem_cons_of_mem q h2

theorem mem_buildSections (lines : List String) (starts : List (String × Nat))
    (p : String × SectionSpan) (h : p ∈ buildSections lines starts []) :
    p ∈ tilingOf lines starts := by
  rw [buildSections_eq_foldl] at h
  rcases mem_foldl_mapSet _ _ _ h with h2 | h2
  · simp at h2
  · exact h2

theorem tiling_start_mem (lines : List String) :
    ∀ (starts : List (String × Nat)), ∀ p ∈ tilingOf lines starts,
    ∃ c ∈ starts, p.2.start = c.2
  | [], p, h => by simp [tilingOf] at h
  | [(n, i)], p, h => by
    rw [tilingOf] at h
    rw [List.mem_singleton.mp h]
    exact ⟨(n, i), by simp⟩
  | (n, i) :: (n2, j) :: rest, p, h => by
    rw [tilingOf] at h
    rcases List.mem_cons.mp h with h2 | h2
    · rw [h2]
      exact ⟨(n, i), by simp⟩
    · rcases tiling_start_mem lines ((n2, j) :: rest) p h2 with ⟨c, hc, he⟩
      exact ⟨c, List.mem_cons_of_mem _ hc, he⟩

theorem tiling_names_mem (lines : List String) :
    ∀ (starts : List (String × Nat)), ∀ p ∈ tilingOf lines starts, p.1 ∈ starts.map Prod.fst
  | [], p, h => by simp [tilingOf] at h
  | [(n, i)], p, h => by
    rw [tilingOf] at h
    rw [List.mem_singleton.mp h]
    simp
  | (n, i) :: (n2, j) :: rest, p, h => by
    rw [tilingOf] at h
    rcases List.mem_cons.mp h with h2 | h2
    · rw [h2]; simp
    · have := tiling_names_mem lines ((n2, j) :: rest) p h2
      simpa using Or.inr (by simpa using this)

/-- Every span of the tiling of a sorted candidate list ends before (or at)
the start of every later span. -/
theorem tiling_chain_pairwise (lines : List String) :
    ∀ (starts : List (String × Nat)),
    List.Pairwise (fun p q : String × Nat => p.2 ≤ q.2) starts →
    List.Pairwise (fun p q : String × SectionSpan => p.2.endIdx ≤ q.2.start)
      (tilingOf lines starts)
  | [], _ => by simp [tilingOf]
  | [(n, i)], _ => by simp [tilingOf]
  | (n, i) :: (n2, j) :: rest, h => by
    rw [tilingOf]
    have htail := (List.pairwise_cons.mp h).2
    refine List.pairwise_cons.mpr ⟨?_, tiling_chain_pairwise lines ((n2, j) :: rest) htail⟩
    intro q hq
    rcases tiling_start_mem lines ((n2, j) :: rest) q hq with ⟨c, hc, he⟩
    show (⟨i, j, contentSlice lines i j⟩ : SectionSpan).endIdx ≤ q.2.start
    rw [he]
    rcases List.mem_cons.mp hc with h2 | h2
    · rw [h2]
    · exact (List.pairwise_cons.mp htail).1 c h2

/-- Every span of the tiling is well-formed when every candidate index is at
most the line count. -/
theorem tiling_spans_wf (lines : List String) :
    ∀ (starts : List (String × Nat)),
    List.Pairwise (fun p q : String × Nat => p.2 ≤ q.2) starts →
    (∀ c ∈ starts, c.2 ≤ lines.length) →
    ∀ p ∈ tilingOf lines starts, p.2.start ≤ p.2.endIdx ∧ p.2.endIdx ≤ lines.length
  | [], _, _, p, hp => by simp [tilingOf] at hp
  | [(n, i)], _, hb, p, hp => by
    rw [tilingOf] at hp
    rw [List.mem_singleton.mp hp]
    exact ⟨hb (n, i) (by simp), le_refl _⟩
  | (n, i) :: (n2, j) :: rest, h, hb, p, hp => by
    rw [tilingOf] at hp
    rcases List.mem_cons.mp hp with h2 | h2
    · rw [h2]
      constructor
      · exact (List.pairwise_cons.mp h).1 (n2, j) (by simp)
      · exact hb (n2, j) (by simp)
    · exact tiling_spans_wf lines ((n2, j) :: rest) (List.pairwise_cons.mp h).2
        (fun c hc => hb c (List.mem_cons_of_mem _ hc)) p h2

theorem insertByIdx_perm (x : String × Nat) :
    ∀ l : List (String × Nat), (insertByIdx x l).Perm (x :: l)
  | [] => by simp [insertByIdx]
  | y :: ys => by
    rw [insertByIdx]
    split
    · exact List.Perm.refl _
    · exact ((insertByIdx_perm x ys).cons y).trans (List.Perm.swap x y ys)

theorem sortByIdx_perm : ∀ l : List (String × Nat), (sortByIdx l).Perm l
  | [] => by simp [sortByIdx]
  | x :: xs => by
    rw [sortByIdx, List.foldr_cons]
    exact (insertByIdx_perm x _).trans ((sortByIdx_perm xs).cons x)

theorem insertByIdx_pairwise (x : String × Nat) :
    ∀ l : List (String × Nat), List.Pairwise (fun p q => p.2 ≤ q.2) l →
    List.Pairwise (fun p q : String × Nat => p.2 ≤ q.2) (insertByIdx x l)
  | [], _ => by simp [insertByIdx]
  | y :: ys, h => by
    rw [insertByIdx]
    split
    · rename_i hle
      refine List.pairwise_cons.mpr ⟨?_, h⟩
      intro q hq
      rcases List.mem_cons.mp hq with rfl | hq
      · exact hle
      · exact le_trans hle ((List.pairwise_cons.mp h).1 q hq)
    · rename_i hgt
      have hy := List.pairwise_cons.mp h
      refine List.pairwise_cons.mpr ⟨?_, insertByIdx_pairwise x ys hy.2⟩
      intro q hq
      have hq2 : q ∈ x :: ys := (insertByIdx_perm x ys).mem_iff.mp hq
      rcases List.mem_cons.mp hq2 with rfl | hq2
      · omega
      · exact hy.1 q hq2

theorem sortByIdx_pairwise : ∀ l : List (String × Nat),
    List.Pairwise (fun p q : String × Nat => p.2 ≤ q.2) (sortByIdx l)
  | [] => by simp [sortByIdx]
  | x :: xs => by
    rw [sortByIdx, List.foldr_cons]
    exact insertByIdx_pairwise x _ (sortByIdx_pairwise xs)

theorem mem_enumFrom_lt {α : Type} : ∀ (l : List α) (n : Nat) (p : Nat × α),
    p ∈ l.enumFrom n → p.1 < n + l.length
  | [], n, p, h => by simp [List.enumFrom] at h
  | a :: l, n, p, h => by
    rw [List.enumFrom] at h
    rcases List.mem_cons.mp h with h | h
    · rw [h]
      simp
    · have := mem_enumFrom_lt l (n + 1) p h
      simp only [List.length_cons]
      omega

theorem sectionStarts_lt (lines : List String) (code : LangCode) :
    ∀ c ∈ sectionStartsOf lines code, c.2 < lines.length := by
  intro c hc
  unfold sectionStartsOf at hc
  rcases List.mem_flatMap.mp hc with ⟨pat, _, hmem⟩
  rcases List.mem_map.mp hmem with ⟨li, hli, hlic⟩
  have hlt : li.1 < lines.length := by
    have := mem_enumFrom_lt lines 0 li (by simpa [List.enum] using List.mem_of_mem_filter hli)
    omega
  rw [← hlic]
  exact hlt

theorem mapSet_keys (m : SectionMap) (k : String) (v : SectionSpan) :
    ((mapSet m k v).map Prod.fst) = m.map Prod.fst ∨
    ((mapSet m k v).map Prod.fst) = m.map Prod.fst ++ [k] ∧ k ∉ m.map Prod.fst := by
  unfold mapSet
  split
  · left
    rw [List.map_map]
    apply List.map_congr_left
    intro p _
    by_cases hpk : p.1 = k <;> simp [hpk]
  · right
    rename_i hany
    constructor
    · simp
    · intro hk
      rcases List.mem_map.mp hk with ⟨p, hp, hpk⟩
      exact hany (List.any_eq_true.mpr ⟨p, hp, by simp [hpk]⟩)

theorem keys_nodup_mapSet (m : SectionMap) (k : String) (v : SectionSpan)
    (h : (m.map Prod.fst).Nodup) : ((mapSet m k v).map Prod.fst).Nodup := by
  rcases mapSet_keys m k v with h2 | ⟨h2, h3⟩
  · rw [h2]; exact h
  · rw [h2, List.nodup_append]
    refine ⟨h, List.nodup_singleton k, ?_⟩
    intro x hx hx2
    rw [List.mem_singleton.mp hx2] at hx
    exact h3 hx

theorem keys_nodup_foldl :
    ∀ (l : SectionMap) (m : SectionMap), (m.map Prod.fst).Nodup →
    ((l.foldl (fun acc q => mapSet acc q.1 q.2) m).map Prod.fst).Nodup
  | [], m, h => h
  | q :: l, m, h => by
    rw [List.foldl_cons]
    exact keys_nodup_foldl l _ (keys_nodup_mapSet m q.1 q.2 h)

theorem keys_nodup_buildSections (lines : List String) (starts : List (String × Nat)) :
    ((buildSections lines starts []).map Prod.fst).Nodup := by
  rw [buildSections_eq_foldl]
  exact keys_nodup_foldl _ [] (by simp)

theorem pairwiseNoOverlapB_iff : ∀ m : SectionMap,
    (pairwiseNoOverlapB m = true ↔
      List.Pairwise (fun p q : String × SectionSpan => ¬(spansOverlapB p.2 q.2 = true)) m)
  | [] => by simp [pairwiseNoOverlapB]
  | p :: rest => by
    rw [pairwiseNoOverlapB, List.pairwise_cons]
    rw [Bool.and_eq_true, List.all_eq_true, pairwiseNoOverlapB_iff rest]
    constructor
    · intro ⟨h1, h2⟩
      exact ⟨fun q hq => by simpa using h1 q hq, h2⟩
    · intro ⟨h1, h2⟩
      exact ⟨fun q hq => by simpa using h1 q hq, h2⟩

theorem pairwise_noOverlap_of_tiling (m til : SectionMap)
    (hmem : ∀ p ∈ m, p ∈ til)
    (hkeys : (m.map Prod.fst).Nodup)
    (htil : List.Pairwise (fun p q : String × SectionSpan => p.2.endIdx ≤ q.2.start) til) :
    List.Pairwise (fun p q : String × SectionSpan => ¬(spansOverlapB p.2 q.2 = true)) m := by
  rw [List.pairwise_iff_get] at htil ⊢
  intro i j hij
  have hvij : i.val < j.val := hij
  have hne : (m.get i).1 ≠ (m.get j).1 := by
    intro contra
    have hnd := List.nodup_iff_injective_get.mp hkeys
    have heq : (List.map Prod.fst m).get ⟨i.val, by simpa using i.isLt⟩ =
        (List.map Prod.fst m).get ⟨j.val, by simpa using j.isLt⟩ := by
      simp only [List.get_map]
      exact contra
    have hfin := hnd heq
    have hv : i.val = j.val := by simpa using congrArg Fin.val hfin
    omega
  have hpi : m.get i ∈ til := hmem _ (List.get_mem m i.val i.isLt)
  have hpj : m.get j ∈ til := hmem _ (List.get_mem m j.val j.isLt)
  rcases List.mem_iff_get.mp hpi with ⟨a, ha⟩
  rcases List.mem_iff_get.mp hpj with ⟨b, hb⟩
  have hab : a ≠ b := fun contra => hne (congrArg Prod.fst (by rw [← ha, contra, hb]))
  simp only [spansOverlapB, decide_eq_true_eq]
  rcases Nat.lt_or_ge a.val b.val with h | h
  · have h2 := htil a b (Fin.lt_def.mpr h)
    rw [ha, hb] at h2
    omega
  · have hne2 : a.val ≠ b.val := fun c => hab (Fin.ext c)
    have h2 := htil b a (Fin.lt_def.mpr (by omega))
    rw [ha, hb] at h2
    omega

theorem mapSet_mem_self (m : SectionMap) (k : String) (v : SectionSpan) :
    (k, v) ∈ mapSet m k v := by
  unfold mapSet
  split
  · rename_i hany
    rcases List.any_eq_true.mp hany with ⟨p, hp, hpk⟩
    refine List.mem_map.mpr ⟨p, hp, ?_⟩
    simp only [decide_eq_true_eq] at hpk
    simp [hpk]
  · simp

theorem buildSections_last_mem (lines : List String) :
    ∀ (starts : List (String × Nat)) (m : SectionMap) (n : String) (i : Nat),
    starts.getLast? = some (n, i) →
    (n, (⟨i, lines.length, contentSlice lines i lines.length⟩ : SectionSpan)) ∈
      buildSections lines starts m
  | [], m, n, i, h => by simp at h
  | [(n0, i0)], m, n, i, h => by
    simp only [List.getLast?_singleton, Option.some.injEq] at h
    rw [buildSections]
    have hn : n0 = n ∧ i0 = i := by
      constructor <;> [exact congrArg Prod.fst h; exact congrArg Prod.snd h]
    rw [hn.1, hn.2]
    exact mapSet_mem_self m n _
  | (n0, i0) :: (n1, i1) :: rest, m, n, i, h => by
    rw [buildSections]
    exact buildSections_last_mem lines ((n1, i1) :: rest) _ n i (by simpa using h)

theorem pairwise_le_getLast : ∀ (l : List (String × Nat)) (x : String × Nat),
    List.Pairwise (fun p q : String × Nat => p.2 ≤ q.2) l →
    l.getLast? = some x → ∀ c ∈ l, c.2 ≤ x.2
  | [], x, _, h, _, _ => by simp at h
  | [y], x, _, h, c, hc => by
    simp only [List.getLast?_singleton, Option.some.injEq] at h
    rw [List.mem_singleton.mp hc, h]
  | y :: z :: rest, x, hp, h, c, hc => by
    have htail := (List.pairwise_cons.mp hp).2
    have hlast : (z :: rest).getLast? = some x := by simpa using h
    rcases List.mem_cons.mp hc with rfl | hc2
    · rcases List.mem_getLast?_eq_getLast (Option.mem_def.mpr hlast) with ⟨hne, hx⟩
      have hxm : x ∈ z :: rest := hx ▸ List.getLast_mem hne
      exact (List.pairwise_cons.mp hp).1 x hxm
    · exact pairwise_le_getLast (z :: rest) x htail hlast c hc2

theorem mapSet_append (m : SectionMap) (k : String) (v : SectionSpan)
    (h : k ∉ m.map Prod.fst) : mapSet m k v = m ++ [(k, v)] := by
  unfold mapSet
  rw [if_neg]
  intro hany
  rcases List.any_eq_true.mp hany with ⟨p, hp, hpk⟩
  simp only [decide_eq_true_eq] at hpk
  exact h (List.mem_map.mpr ⟨p, hp, hpk⟩)

theorem build_eq_append_tiling (lines : List String) :
    ∀ (starts : List (String × Nat)) (m : SectionMap),
    (starts.map Prod.fst).Nodup →
    (∀ n ∈ starts.map Prod.fst, n ∉ m.map Prod.fst) →
    buildSections lines starts m = m ++ tilingOf lines starts
  | [], m, _, _ => by simp [buildSections, tilingOf]
  | [(n, i)], m, _, hd => by
    rw [buildSections, tilingOf]
    exact mapSet_append m n _ (hd n (by simp))
  | (n, i) :: (n2, j) :: rest, m, hn, hd => by
    rw [buildSections, tilingOf]
    rw [mapSet_append m n _ (hd n (by simp))]
    have hn' := hn
    simp only [List.map_cons] at hn'
    have hcons := List.nodup_cons.mp hn'
    have hn2 : (((n2, j) :: rest).map Prod.fst).Nodup := by
      simp only [List.map_cons]
      exact hcons.2
    have hd2 : ∀ x ∈ ((n2, j) :: rest).map Prod.fst,
        x ∉ (m ++ [(n, (⟨i, j, contentSlice lines i j⟩ : SectionSpan))]).map Prod.fst := by
      intro x hx hmem
      rw [List.map_append, List.mem_append] at hmem
      rcases hmem with hmem | hmem
      · refine hd x ?_ hmem
        simp only [List.map_cons] at hx ⊢
        exact List.mem_cons_of_mem n hx
      · have hxn : x = n := by simpa using hmem
        apply hcons.1
        simp only [List.map_cons] at hx
        rw [← hxn]
        exact hx
    rw [build_eq_append_tiling lines ((n2, j) :: rest) _ hn2 hd2]
    simp

theorem tiling_head (lines : List String) (n : String) (i : Nat) :
    ∀ rest : List (String × Nat), ∃ e c tl,
      tilingOf lines ((n, i) :: rest) = (n, ⟨i, e, c⟩) :: tl
  | [] => ⟨lines.length, _, [], rfl⟩
  | (n2, j) :: rest => ⟨j, _, _, rfl⟩

theorem tiling_chainOk (lines : List String) :
    ∀ starts : List (String × Nat), chainOkB (tilingOf lines starts) lines.length = true
  | [] => rfl
  | [(n, i)] => by simp [tilingOf, chainOkB]
  | (n, i) :: (n2, j) :: rest => by
    rw [tilingOf]
    rcases tiling_head lines n2 j rest with ⟨e, c, tl, he⟩
    rw [he]
    rw [chainOkB, Bool.and_eq_true]
    refine ⟨by simp, ?_⟩
    rw [← he]
    exact tiling_chainOk lines ((n2, j) :: rest)

theorem insertBySpanStart_of_le (x : String × SectionSpan) :
    ∀ l : SectionMap, (∀ y ∈ l, x.2.start ≤ y.2.start) → insertBySpanStart x l = x :: l
  | [], _ => rfl
  | y :: ys, h => by
    rw [insertBySpanStart, if_pos (h y (List.mem_cons_self y ys))]

theorem sortSpans_sorted_id :
    ∀ l : SectionMap, List.Pairwise (fun p q : String × SectionSpan =>
      p.2.start ≤ q.2.start) l → sortSpansByStart l = l
  | [], _ => rfl
  | x :: xs, h => by
    have hx := List.pairwise_cons.mp h
    show insertBySpanStart x (sortSpansByStart xs) = x :: xs
    rw [sortSpans_sorted_id xs hx.2]
    exact insertBySpanStart_of_le x xs hx.1

/-- C2 amended: for every input, the section map has no overlapping spans,
and some section of maximal start line ends exactly at the document's line
count; full contiguity holds whenever no section name matches twice (the
candidate names are distinct), since then no `Map.set` overwrite occurs. -/
theorem identifySections_spans_amended (text : String) :
    pairwiseNoOverlapB (identifySections text (detectLanguage text)) = true ∧
    (identifySections text (detectLanguage text) ≠ [] →
      ∃ p ∈ identifySections text (detectLanguage text),
        p.2.endIdx = (jsSplitLines text).length ∧
        ∀ q ∈ identifySections text (detectLanguage text), q.2.start ≤ p.2.start) ∧
    (((sectionStartsOf (jsSplitLines text) (detectLanguage text).code).map Prod.fst).Nodup →
      sectionMapContiguous (identifySections text (detectLanguage text))
        (jsSplitLines text).length) := by
  have hid : identifySections text (detectLanguage text) =
      buildSections (jsSplitLines text)
        (sortByIdx (sectionStartsOf (jsSplitLines text) (detectLanguage text).code)) [] := rfl
  set lines := jsSplitLines text with hlines
  set starts := sortByIdx (sectionStartsOf lines (detectLanguage text).code) with hstarts
  have hpw : List.Pairwise (fun p q : String × Nat => p.2 ≤ q.2) starts :=
    sortByIdx_pairwise _
  have hbound : ∀ c ∈ starts, c.2 ≤ lines.length := by
    intro c hc
    have hc2 : c ∈ sectionStartsOf lines (detectLanguage text).code :=
      (sortByIdx_perm _).mem_iff.mp hc
    exact le_of_lt (sectionStarts_lt lines _ c hc2)
  have htilpw := tiling_chain_pairwise lines starts hpw
  have hwf := tiling_spans_wf lines starts hpw hbound
  refine ⟨?_, ?_, ?_⟩
  · rw [hid, pairwiseNoOverlapB_iff]
    exact pairwise_noOverlap_of_tiling _ _ (mem_buildSections lines starts)
      (keys_nodup_buildSections lines starts) htilpw
  · intro hne
    rcases hlaste : starts.getLast? with _ | ⟨ln, li⟩
    · exfalso
      apply hne
      rw [hid, List.getLast?_eq_none_iff.mp hlaste]
      rfl
    · refine ⟨(ln, ⟨li, lines.length, contentSlice lines li lines.length⟩), ?_, rfl, ?_⟩
      · rw [hid]
        exact buildSections_last_mem lines starts [] ln li hlaste
      · intro q hq
        rw [hid] at hq
        have hqt := mem_buildSections lines starts q hq
        rcases tiling_start_mem lines starts q hqt with ⟨c, hc, he⟩
        rw [he]
        exact pairwise_le_getLast starts (ln, li) hpw hlaste c hc
  · intro hnodup
    have hnodup' : (starts.map Prod.fst).Nodup :=
      ((sortByIdx_perm _).map Prod.fst).nodup_iff.mpr hnodup
    have heq : identifySections text (detectLanguage text) = tilingOf lines starts := by
      rw [hid, build_eq_append_tiling lines starts [] hnodup' (by simp)]
      simp
    unfold sectionMapContiguous
    rw [heq]
    have hsorted : List.Pairwise (fun p q : String × SectionSpan =>
        p.2.start ≤ q.2.start) (tilingOf lines starts) := by
      refine htilpw.imp_of_mem ?_
      intro a b ha _ hab
      have := (hwf a ha).1
      omega
    rw [sortSpans_sorted_id _ hsorted]
    exact tiling_chainOk lines starts

